import Mathlib

/-!
Verification development for the meeting-orchestration pipeline
(`orchestrator_agent.py`, `calender_tool.py`, `server.py`).

Each Python component relevant to the specification claims is shallowly
embedded as an executable Lean definition: pure functions become Lean
functions on `List Char` / `String` / `Nat`, stateful code becomes explicit
state passing, machine-level time values are modelled as natural numbers of
minutes, fallible code returns `Option` / `Except`, and remote services
(Google Calendar, Gmail, the Nemotron text-generation endpoint) are modelled
as oracle parameters.  Theorems about the embeddings settle the claims.
-/

set_option maxHeartbeats 1000000

/-- Decidable equality for `Except`, used to evaluate embeddings of
fallible Python functions on concrete inputs. -/
def exceptDecEq {e a : Type} [DecidableEq e] [DecidableEq a] : DecidableEq (Except e a)
  | .error x, .error y =>
    if h : x = y then .isTrue (by rw [h]) else .isFalse (fun hh => h (Except.error.inj hh))
  | .error _, .ok _ => .isFalse (fun hh => Except.noConfusion hh)
  | .ok _, .error _ => .isFalse (fun hh => Except.noConfusion hh)
  | .ok x, .ok y =>
    if h : x = y then .isTrue (by rw [h]) else .isFalse (fun hh => h (Except.ok.inj hh))

instance {e a : Type} [DecidableEq e] [DecidableEq a] : DecidableEq (Except e a) :=
  exceptDecEq

/-! ## Progress Broadcaster (`server.py`, `broadcast_workflow_event`)

The SSE registry `workflow_event_queues` is a list of bounded queues; the
publisher tries a non-blocking put on each, collects the indices of the
queues that were full, and removes those registrations (in reverse index
order, as the Python code does).  `put_nowait` mirrors Python's
`queue.Queue.put_nowait`: with `maxsize > 0` it fails exactly when
`qsize() >= maxsize`; the failure (`queue.Full`) is modelled as `none`. -/

namespace Server

structure EventQueue (α : Type) where
  maxsize : Nat
  items : List α
deriving DecidableEq

/-- Model of Python `queue.Queue.put_nowait`: `none` models the `queue.Full`
exception, `some` is the queue with the element appended. -/
def put_nowait {α : Type} (q : EventQueue α) (x : α) : Option (EventQueue α) :=
  if 0 < q.maxsize ∧ q.maxsize ≤ q.items.length then none
  else some { q with items := q.items ++ [x] }

/-- First pass of `broadcast_workflow_event`: enumerate the registered
queues (starting at index `i`), apply `put_nowait` where possible, and
collect the indices of the full ("dead") queues in ascending order. -/
def tryPutAll {α : Type} (ev : α) : List (EventQueue α) → Nat → List (EventQueue α) × List Nat
  | [], _ => ([], [])
  | q :: qs, i =>
    let rec_result := tryPutAll ev qs (i + 1)
    match put_nowait q ev with
    | some q2 => (q2 :: rec_result.1, rec_result.2)
    | none => (q :: rec_result.1, i :: rec_result.2)

/-- Model of Python `list.pop(i)` (as a pure value). -/
def removeIdx {α : Type} (l : List α) (i : Nat) : List α := l.take i ++ l.drop (i + 1)

/-- Embedding of `server.broadcast_workflow_event`: put the event on every
registered queue without blocking; queues that are full are skipped and
their registrations removed (popping the dead indices in reverse order). -/
def broadcast_workflow_event {α : Type} (qs : List (EventQueue α)) (ev : α) :
    List (EventQueue α) :=
  let pass := tryPutAll ev qs 0
  pass.2.reverse.foldl removeIdx pass.1

theorem tryPutAll_dead_ge {α : Type} (ev : α) :
    ∀ (qs : List (EventQueue α)) (i : Nat), ∀ j ∈ (tryPutAll ev qs i).2, i ≤ j := by
  intro qs
  induction qs with
  | nil => intro i j hj; simp [tryPutAll] at hj
  | cons q qs ih =>
    intro i j hj
    simp only [tryPutAll] at hj
    cases hput : put_nowait q ev with
    | some q2 =>
      rw [hput] at hj
      simp only at hj
      exact le_trans (Nat.le_succ i) (ih (i + 1) j hj)
    | none =>
      rw [hput] at hj
      simp only [List.mem_cons] at hj
      rcases hj with h | h
      · omega
      · exact le_trans (Nat.le_succ i) (ih (i + 1) j h)

theorem removeIdx_cons_succ {α : Type} (x : α) (l : List α) (k : Nat) :
    removeIdx (x :: l) (k + 1) = x :: removeIdx l k := by
  simp [removeIdx]

theorem foldl_removeIdx_cons {α : Type} :
    ∀ (ds : List Nat) (i : Nat) (x : α) (l : List α), (∀ j ∈ ds, i + 1 ≤ j) →
      ds.foldl (fun acc j => removeIdx acc (j - i)) (x :: l)
        = x :: ds.foldl (fun acc j => removeIdx acc (j - (i + 1))) l := by
  intro ds
  induction ds with
  | nil => intro i x l _; simp
  | cons d ds ih =>
    intro i x l hall
    have hd : i + 1 ≤ d := hall d (List.mem_cons_self d ds)
    have hsub : d - i = (d - (i + 1)) + 1 := by omega
    simp only [List.foldl_cons, hsub, removeIdx_cons_succ]
    exact ih i x (removeIdx l (d - (i + 1))) (fun j hj => hall j (List.mem_cons_of_mem d hj))

theorem tryPutAll_foldl_spec {α : Type} (ev : α) :
    ∀ (qs : List (EventQueue α)) (i : Nat),
      ((tryPutAll ev qs i).2.reverse).foldl (fun l j => removeIdx l (j - i))
          (tryPutAll ev qs i).1
        = qs.filterMap (fun q => put_nowait q ev) := by
  intro qs
  induction qs with
  | nil => intro i; simp [tryPutAll]
  | cons q qs ih =>
    intro i
    have hge : ∀ j ∈ ((tryPutAll ev qs (i + 1)).2).reverse, i + 1 ≤ j := by
      intro j hj
      exact tryPutAll_dead_ge ev qs (i + 1) j (List.mem_reverse.mp hj)
    simp only [tryPutAll]
    cases hput : put_nowait q ev with
    | some q2 =>
      simp only [List.filterMap_cons, hput]
      rw [foldl_removeIdx_cons _ i q2 (tryPutAll ev qs (i + 1)).1 hge]
      rw [ih (i + 1)]
    | none =>
      simp only [List.filterMap_cons, hput]
      rw [List.reverse_cons, List.foldl_append]
      rw [foldl_removeIdx_cons _ i q (tryPutAll ev qs (i + 1)).1 hge]
      rw [ih (i + 1)]
      simp [removeIdx]

/-- C9: publishing a progress event never blocks and never raises in the
publisher (the embedding is a total function whose only failure channel,
`queue.Full`, is consumed internally), for any number of subscribers
including zero.  The resulting registry is exactly the original list with
the event appended to every queue that had room, and every queue that was
at capacity dropped from the registry; in particular every other registered
subscriber still receives the event. -/
theorem c9_broadcast_spec {α : Type} (qs : List (EventQueue α)) (ev : α) :
    broadcast_workflow_event qs ev = qs.filterMap (fun q => put_nowait q ev)
    ∧ broadcast_workflow_event ([] : List (EventQueue α)) ev = []
    ∧ ∀ q ∈ qs, ∀ q2, put_nowait q ev = some q2 →
        q2 ∈ broadcast_workflow_event qs ev ∧ q2.items = q.items ++ [ev] := by
  have hchar : broadcast_workflow_event qs ev = qs.filterMap (fun q => put_nowait q ev) := by
    have h := tryPutAll_foldl_spec ev qs 0
    simp only [Nat.sub_zero] at h
    exact h
  refine ⟨hchar, by simp [broadcast_workflow_event, tryPutAll], ?_⟩
  intro q hq q2 hput
  constructor
  · rw [hchar]
    exact List.mem_filterMap.mpr ⟨q, hq, hput⟩
  · simp only [put_nowait] at hput
    by_cases hfull : 0 < q.maxsize ∧ q.maxsize ≤ q.items.length
    · simp [hfull] at hput
    · simp only [hfull, if_false] at hput
      cases hput
      rfl

/-- Witness for C9 at a concrete registry: two subscribers, the second at
capacity; the event reaches the first and the second is dropped. -/
theorem c9_broadcast_spec_witness :
    broadcast_workflow_event [⟨2, [0]⟩, ⟨1, [1]⟩] (5 : Nat) = [⟨2, [0, 5]⟩]
    ∧ (⟨2, [0, 5]⟩ : EventQueue Nat) ∈ broadcast_workflow_event [⟨2, [0]⟩, ⟨1, [1]⟩] (5 : Nat) := by
  constructor
  · rw [(c9_broadcast_spec [⟨2, [0]⟩, ⟨1, [1]⟩] (5 : Nat)).1]
    decide
  · exact ((c9_broadcast_spec [⟨2, [0]⟩, ⟨1, [1]⟩] (5 : Nat)).2.2 ⟨2, [0]⟩ (by decide)
      ⟨2, [0, 5]⟩ (by decide)).1

end Server

/-! ## Python string helpers

ASCII-level models of the Python `str` operations used by the attendee
resolver: `str.lower()` (via `Char.toLower`, which lowercases the ASCII
range, matching Python on the ASCII inputs that occur here), `str.strip()`
and `str.split()` with Python's default whitespace set. -/

namespace PyStr

/-- Python's default whitespace characters (space, tab, LF, CR, VT, FF),
compared through code points. -/
def isPyWs (c : Char) : Bool :=
  c.toNat = 32 || c.toNat = 9 || c.toNat = 10 || c.toNat = 13 || c.toNat = 11 || c.toNat = 12

/-- Model of Python `str.lower()` (ASCII range). -/
def pyLower (s : String) : String := ⟨s.toList.map Char.toLower⟩

/-- Model of Python `str.strip()` with no argument. -/
def pyStripList (l : List Char) : List Char :=
  ((l.dropWhile isPyWs).reverse.dropWhile isPyWs).reverse

def pyStrip (s : String) : String := ⟨pyStripList s.toList⟩

/-- Model of Python `str.split()` with no argument: split on runs of
whitespace, producing no empty tokens.  Fuel-driven so that the definition
is structural and computes by reduction; `l.length + 1` fuel always
suffices since every recursive step consumes at least one character. -/
def splitWsFuel : Nat → List Char → List (List Char)
  | 0, _ => []
  | _, [] => []
  | fuel + 1, c :: cs =>
    if isPyWs c then splitWsFuel fuel cs
    else (c :: cs.takeWhile (fun d => !isPyWs d)) :: splitWsFuel fuel (cs.dropWhile (fun d => !isPyWs d))

def splitWs (s : String) : List String :=
  (splitWsFuel (s.toList.length + 1) s.toList).map (fun l => ⟨l⟩)

theorem isPyWs_toLower (c : Char) : isPyWs (Char.toLower c) = isPyWs c := by
  by_cases h : c.toNat ≥ 65 ∧ c.toNat ≤ 90
  · have hv : (c.toNat + 32).isValidChar := by
      left
      omega
    have hl : Char.toLower c = Char.ofNatAux (c.toNat + 32) hv := by
      rw [Char.toLower]
      simp only [h, if_true, ge_iff_le]
      exact dif_pos hv
    have h1 : (Char.ofNatAux (c.toNat + 32) hv).toNat = c.toNat + 32 := rfl
    have hc : isPyWs c = false := by
      simp only [isPyWs, Bool.or_eq_false_iff, decide_eq_false_iff_not]
      omega
    have hc2 : isPyWs (Char.ofNatAux (c.toNat + 32) hv) = false := by
      simp only [isPyWs, h1, Bool.or_eq_false_iff, decide_eq_false_iff_not]
      omega
    rw [hl, hc, hc2]
  · have hl : Char.toLower c = c := by
      rw [Char.toLower]
      simp [h]
    rw [hl]

theorem exists_nonWs_dropWhile {l : List Char} (h : ∃ c ∈ l, isPyWs c = false) :
    ∃ c ∈ l.dropWhile isPyWs, isPyWs c = false := by
  induction l with
  | nil => simp at h
  | cons x xs ih =>
    rcases h with ⟨c, hc, hcw⟩
    by_cases hx : isPyWs x
    · rw [List.dropWhile_cons_of_pos hx]
      rcases List.mem_cons.mp hc with rfl | hmem
      · rw [hcw] at hx
        exact absurd hx (by simp)
      · exact ih ⟨c, hmem, hcw⟩
    · rw [List.dropWhile_cons_of_neg hx]
      exact ⟨x, List.mem_cons_self x xs, by simpa using hx⟩

theorem exists_nonWs_pyStrip {l : List Char} (h : ∃ c ∈ l, isPyWs c = false) :
    ∃ c ∈ pyStripList l, isPyWs c = false := by
  unfold pyStripList
  have h1 := exists_nonWs_dropWhile h
  have h2 : ∃ c ∈ (l.dropWhile isPyWs).reverse, isPyWs c = false := by
    rcases h1 with ⟨c, hc, hcw⟩
    exact ⟨c, List.mem_reverse.mpr hc, hcw⟩
  have h3 := exists_nonWs_dropWhile h2
  rcases h3 with ⟨c, hc, hcw⟩
  exact ⟨c, List.mem_reverse.mpr hc, hcw⟩

theorem splitWsFuel_ne_nil : ∀ (fuel : Nat) (l : List Char), l.length < fuel →
    (∃ c ∈ l, isPyWs c = false) → splitWsFuel fuel l ≠ [] := by
  intro fuel
  induction fuel with
  | zero => intro l hl; omega
  | succ f ih =>
    intro l hl hex
    match l with
    | [] => simp at hex
    | c :: cs =>
      by_cases hc : isPyWs c
      · have hex' : ∃ d ∈ cs, isPyWs d = false := by
          rcases hex with ⟨d, hd, hdw⟩
          rcases List.mem_cons.mp hd with rfl | hmem
          · rw [hdw] at hc
            exact absurd hc (by simp)
          · exact ⟨d, hmem, hdw⟩
        have := ih cs (by simpa using Nat.lt_of_succ_lt_succ hl) hex'
        simpa [splitWsFuel, hc] using this
      · simp [splitWsFuel, hc]

end PyStr

/-! ## String similarity (`difflib.SequenceMatcher(None, a, b).ratio()`)

An executable embedding of the Ratcliff/Obershelp-style matcher used by
`fuzzy_match_name`: `find_longest_match` is the `j2len` dynamic program of
CPython's `difflib` (including the automatic-junk "popular element" rule,
which is inert below 200 characters, and the four match-extension loops),
`matchingTotal` sums the sizes of all matching blocks, and `ratio` is
`2*M/T` as an exact rational (Python computes an IEEE double; for the short
strings involved here the comparisons against the 0.8 threshold agree). -/

namespace Difflib

/-- Ascending positions of `c` in `b` (the `b2j` table before junk
filtering). -/
def positions (b : List Char) (c : Char) : List Nat :=
  (List.range b.length).filter (fun j => b.getD j ' ' = c)

/-- The "autojunk" popularity test: only applies when `b` has at least 200
elements. -/
def isPopular (b : List Char) (c : Char) : Bool :=
  decide (200 ≤ b.length) && decide (b.length / 100 + 1 < (b.filter (fun d => d = c)).length)

def b2j (b : List Char) (c : Char) : List Nat :=
  if isPopular b c then [] else positions b c

/-- One step of the inner `for j` loop of `find_longest_match`; the state is
the `newj2len` table (as a function) together with `(besti, bestj,
bestsize)`.  The old `j2len` table is the fixed first argument; a lookup at
`j - 1` with `j = 0` is a lookup of key `-1` in Python and yields 0. -/
def flmInnerStep (j2len : Nat → Nat) (i : Nat)
    (st : (Nat → Nat) × Nat × Nat × Nat) (j : Nat) : (Nat → Nat) × Nat × Nat × Nat :=
  let k := (if j = 0 then 0 else j2len (j - 1)) + 1
  let newTab := fun j' => if j' = j then k else st.1 j'
  if st.2.2.2 < k then (newTab, i + 1 - k, j + 1 - k, k) else (newTab, st.2)

/-- One step of the outer `for i` loop of `find_longest_match`.  The
`continue` on `j < blo` and the `break` on `j >= bhi` are the filter and
`takeWhile` below (the position list is ascending). -/
def flmOuterStep (a b : List Char) (blo bhi : Nat)
    (st : (Nat → Nat) × Nat × Nat × Nat) (i : Nat) : (Nat → Nat) × Nat × Nat × Nat :=
  let js := ((b2j b (a.getD i ' ')).filter (fun j => decide (blo ≤ j))).takeWhile (fun j => decide (j < bhi))
  let inner := js.foldl (flmInnerStep st.1 i) ((fun _ => 0), st.2)
  inner

/-- The `while` loops extending the best block left over characters
satisfying `cond`; fuel-driven (fuel `besti` suffices). -/
def extendLeft (a b : List Char) (cond : Char → Bool) (alo blo : Nat) :
    Nat → Nat × Nat × Nat → Nat × Nat × Nat
  | 0, st => st
  | fuel + 1, (besti, bestj, bestsize) =>
    if alo < besti ∧ blo < bestj ∧ cond (b.getD (bestj - 1) ' ')
        ∧ a.getD (besti - 1) ' ' = b.getD (bestj - 1) ' ' then
      extendLeft a b cond alo blo fuel (besti - 1, bestj - 1, bestsize + 1)
    else (besti, bestj, bestsize)

/-- The `while` loops extending the best block right. -/
def extendRight (a b : List Char) (cond : Char → Bool) (ahi bhi : Nat) :
    Nat → Nat × Nat × Nat → Nat × Nat × Nat
  | 0, st => st
  | fuel + 1, (besti, bestj, bestsize) =>
    if besti + bestsize < ahi ∧ bestj + bestsize < bhi
        ∧ cond (b.getD (bestj + bestsize) ' ')
        ∧ a.getD (besti + bestsize) ' ' = b.getD (bestj + bestsize) ' ' then
      extendRight a b cond ahi bhi fuel (besti, bestj, bestsize + 1)
    else (besti, bestj, bestsize)

/-- Embedding of `difflib.SequenceMatcher.find_longest_match` with
`isjunk = None` (so the only junk is autojunk-popular elements). -/
def find_longest_match (a b : List Char) (alo ahi blo bhi : Nat) : Nat × Nat × Nat :=
  let junk := isPopular b
  let dp := (List.range' alo (ahi - alo)).foldl (flmOuterStep a b blo bhi)
    ((fun _ => 0), alo, blo, 0)
  let st1 := extendLeft a b (fun c => !junk c) alo blo (ahi + 1) dp.2
  let st2 := extendRight a b (fun c => !junk c) ahi bhi (ahi + 1) st1
  let st3 := extendLeft a b junk alo blo (ahi + 1) st2
  extendRight a b junk ahi bhi (ahi + 1) st3

/-- Total size of all matching blocks (the recursion of
`get_matching_blocks`); fuel-driven, `a.length + 1` suffices. -/
def matchingTotal (a b : List Char) : Nat → Nat → Nat → Nat → Nat → Nat
  | 0, _, _, _, _ => 0
  | fuel + 1, alo, ahi, blo, bhi =>
    let m := find_longest_match a b alo ahi blo bhi
    if m.2.2 = 0 then 0
    else matchingTotal a b fuel alo m.1 blo m.2.1
      + m.2.2
      + matchingTotal a b fuel (m.1 + m.2.2) ahi (m.2.1 + m.2.2) bhi

/-- Embedding of `SequenceMatcher(None, a, b).ratio()` as an exact
rational. -/
def ratio (a b : List Char) : ℚ :=
  if a.length + b.length = 0 then 1
  else (2 * (matchingTotal a b (a.length + 1) 0 a.length 0 b.length) : ℚ)
    / ((a.length : ℚ) + (b.length : ℚ))

/-- The comparison `ratio(a, b) >= threshold` carried out on the integer
numerator and denominator (so that it evaluates by kernel reduction);
`ratioGe_iff` below shows it agrees with the rational-valued `ratio`. -/
def ratioGe (th : ℚ) (a b : List Char) : Bool :=
  if a.length + b.length = 0 then decide (th.num ≤ (th.den : Int))
  else
    decide (th.num * ((a.length : Int) + (b.length : Int))
      ≤ 2 * (matchingTotal a b (a.length + 1) 0 a.length 0 b.length : Int) * (th.den : Int))

theorem ratioGe_iff (th : ℚ) (a b : List Char) :
    ratioGe th a b = true ↔ th ≤ ratio a b := by
  have hden : (0 : ℚ) < (th.den : ℚ) := by
    exact_mod_cast th.pos
  have hden' : ((th.den : ℚ)) ≠ 0 := ne_of_gt hden
  have h1 : th * (th.den : ℚ) = (th.num : ℚ) := by
    nth_rewrite 1 [← Rat.num_div_den th]
    rw [div_mul_cancel₀ _ hden']
  unfold ratioGe ratio
  by_cases h0 : a.length + b.length = 0
  · simp only [h0, if_true, decide_eq_true_eq]
    constructor
    · intro h
      rw [← mul_le_mul_right hden, h1, one_mul]
      exact_mod_cast h
    · intro h
      rw [← mul_le_mul_right hden, h1, one_mul] at h
      exact_mod_cast h
  · simp only [h0, if_false, decide_eq_true_eq]
    have hT : (0 : ℚ) < (a.length : ℚ) + (b.length : ℚ) := by
      have hp : 0 < a.length + b.length := Nat.pos_of_ne_zero h0
      exact_mod_cast hp
    constructor
    · intro h
      rw [le_div_iff₀ hT, ← mul_le_mul_right hden, mul_right_comm, h1]
      exact_mod_cast h
    · intro h
      rw [le_div_iff₀ hT, ← mul_le_mul_right hden, mul_right_comm, h1] at h
      exact_mod_cast h

end Difflib

/-! ## Calendar tool (`calender_tool.py`)

Timestamps are modelled as natural numbers of minutes on a single local
timeline (the Python code parses ISO-8601 strings and localizes everything
to `America/New_York`); a calendar day is a block of 1440 minutes, so the
day an event is attributed to is `start / 1440`.  Sorting `day_events` by
the `start` string in Python coincides with sorting by start time for the
uniformly-formatted timestamps this models. -/

namespace Calender

structure CalendarEvent where
  id : String
  summary : String
  start : Nat
  stop : Nat
  description : Option String
  location : Option String
  attendees : Option (List String)
deriving DecidableEq

structure TimeSlot where
  start : Nat
  stop : Nat
  duration_minutes : Nat
deriving DecidableEq

/-- The calendar day a time value falls on. -/
def dayOf (t : Nat) : Nat := t / 1440

/-- Events are ordered by start time (`day_events.sort(key=lambda e:
e.start)`). -/
def startLE (e1 e2 : CalendarEvent) : Prop := e1.start ≤ e2.start

instance : DecidableRel startLE := fun e1 e2 => Nat.decLe e1.start e2.start

instance : IsTotal CalendarEvent startLE := ⟨fun a b => Nat.le_total a.start b.start⟩

instance : IsTrans CalendarEvent startLE := ⟨fun _ _ _ => Nat.le_trans⟩

/-- The per-day gap sweep of `find_available_slots`: walk the day's sorted
events with a cursor, emit a slot for every gap of at least the requested
duration and for the remainder of the day; the returned flag is set when
`max_slots` has been reached (the Python code returns from the whole
function at that point).  The gap test `event.start - cursor >= duration`
is `cursor + duration <= event.start` (Python compares a possibly negative
difference). -/
def sweepDay (dur maxSlots dayEnd : Nat) :
    List CalendarEvent → Nat → List TimeSlot → List TimeSlot × Bool
  | [], cursor, acc =>
    if cursor + dur ≤ dayEnd then
      let acc2 := acc ++ [⟨cursor, cursor + dur, dur⟩]
      (acc2, decide (maxSlots ≤ acc2.length))
    else (acc, false)
  | e :: es, cursor, acc =>
    if cursor + dur ≤ e.start then
      let acc2 := acc ++ [⟨cursor, cursor + dur, dur⟩]
      if maxSlots ≤ acc2.length then (acc2, true)
      else sweepDay dur maxSlots dayEnd es (max cursor e.stop) acc2
    else sweepDay dur maxSlots dayEnd es (max cursor e.stop) acc

/-- The events attributed to calendar day `d` (by start timestamp), sorted
ascending by start time. -/
def dayEventsOf (events : List CalendarEvent) (d : Nat) : List CalendarEvent :=
  (events.filter (fun e => decide (dayOf e.start = d))).insertionSort startLE

/-- The day loop of `find_available_slots`: `today` is the current day
index and `todayWeekday` its weekday (0 = Monday, per Python's
`date.weekday()`; Saturday and Sunday are 5 and 6).  The second component
of `sweepDay` signals that `max_slots` was reached and the whole search
returns immediately. -/
def findSlotsGo (events : List CalendarEvent) (dur workStart workEnd maxSlots : Nat)
    (skipWeekends : Bool) (today todayWeekday : Nat) :
    List Nat → List TimeSlot → List TimeSlot
  | [], acc => acc
  | off :: rest, acc =>
    if skipWeekends ∧ 5 ≤ (todayWeekday + off) % 7 then
      findSlotsGo events dur workStart workEnd maxSlots skipWeekends today todayWeekday rest acc
    else
      if (sweepDay dur maxSlots ((today + off) * 1440 + workEnd)
          (dayEventsOf events (today + off)) ((today + off) * 1440 + workStart) acc).2 then
        (sweepDay dur maxSlots ((today + off) * 1440 + workEnd)
          (dayEventsOf events (today + off)) ((today + off) * 1440 + workStart) acc).1
      else
        findSlotsGo events dur workStart workEnd maxSlots skipWeekends today todayWeekday rest
          (sweepDay dur maxSlots ((today + off) * 1440 + workEnd)
            (dayEventsOf events (today + off)) ((today + off) * 1440 + workStart) acc).1

/-- Embedding of `CalendarAgentTool.find_available_slots` over the list of
events fetched from the remote store (the `fetch_events` remote call is the
oracle input), with the working-hours bounds already converted to minutes
past midnight. -/
def find_available_slots (events : List CalendarEvent) (duration_minutes days_ahead : Nat)
    (workStart workEnd : Nat) (max_slots : Nat) (skip_weekends : Bool)
    (today todayWeekday : Nat) : List TimeSlot :=
  findSlotsGo events duration_minutes workStart workEnd max_slots skip_weekends today
    todayWeekday (List.range days_ahead) []

end Calender

/-! ## Attendee Resolver (`orchestrator_agent.py`, `fuzzy_match_name` /
`get_attendee_emails`)

The module-global `_ATTENDEE_MAPPING` (loaded at startup from
`attendee_mapping.json`, with a hardcoded fallback table) is passed as an
explicit parameter.  A record returned by the generation fallback carries
the extra `first_name`/`last_name` keys, modelled as `Option` fields (table
records carry `none`).  `Except.error` models an uncaught Python exception
escaping `fuzzy_match_name` (the message is the `str()` of the
exception). -/

namespace Orchestrator

open PyStr

structure AttendeeRecord where
  primary_name : String
  email : String
  aliases : List String
  first_name : Option String
  last_name : Option String
deriving DecidableEq

structure AttendeeMapping where
  attendees : List AttendeeRecord
  default_domain : String
deriving DecidableEq

/-- The hardcoded fallback table of `load_attendee_mapping`. -/
def defaultAttendeeMapping : AttendeeMapping :=
  { attendees :=
      [ { primary_name := "rahual", email := "rahual.rai@bison.howard.edu",
          aliases := ["Rahual", "rahual rai"], first_name := none, last_name := none },
        { primary_name := "kritika", email := "kritika.pant@bison.howard.edu",
          aliases := ["Kritika", "kritika pant"], first_name := none, last_name := none },
        { primary_name := "biraj", email := "biraj.dahal@bison.howard.edu",
          aliases := ["Biraj", "biraj dahal"], first_name := none, last_name := none } ],
    default_domain := "example.com" }

/-- The default `threshold = 0.8` of `fuzzy_match_name`, as the exact
rational 4/5 (`mkRat` so that it evaluates by kernel reduction). -/
def defaultThreshold : ℚ := mkRat 4 5

/-- The string-similarity score used by the resolver:
`SequenceMatcher(None, name_lower, alias_lower).ratio()`. -/
def similarity (nameLower aliasLower : String) : ℚ :=
  Difflib.ratio nameLower.toList aliasLower.toList

/-- The exact-match pass of `fuzzy_match_name`: first attendee whose
primary name or one of whose aliases equals the lowered input
(case-insensitively). -/
def exactMatch (m : AttendeeMapping) (nameLower : String) : Option AttendeeRecord :=
  m.attendees.find? (fun a =>
    decide (nameLower = pyLower a.primary_name)
      || a.aliases.any (fun al => decide (nameLower = pyLower al)))

/-- The fuzzy pass of `fuzzy_match_name`: the loops return the attendee
owning the first alias (attendees in table order, aliases in listed order)
whose similarity reaches the threshold.  The comparison is
`Difflib.ratioGe`, the integer form of `similarity >= threshold`
(see `Difflib.ratioGe_iff`). -/
def fuzzyStage (attendees : List AttendeeRecord) (nameLower : String) (threshold : ℚ) :
    Option AttendeeRecord :=
  attendees.find? (fun a =>
    a.aliases.any (fun al => Difflib.ratioGe threshold nameLower.toList (pyLower al).toList))

/-- Embedding of `orchestrator_agent.fuzzy_match_name`.  `.ok none` is the
`return None` taken for a falsy (empty) name; `.error` models the uncaught
`IndexError` raised by `parts[0]` when the lowered, stripped name has no
whitespace-separated tokens (a whitespace-only name). -/
def fuzzy_match_name (m : AttendeeMapping) (name : String) (threshold : ℚ) :
    Except String (Option AttendeeRecord) :=
  if name = "" then .ok none
  else
    let nameLower := pyStrip (pyLower name)
    match exactMatch m nameLower with
    | some a => .ok (some a)
    | none =>
      match fuzzyStage m.attendees nameLower threshold with
      | some a => .ok (some a)
      | none =>
        match splitWs nameLower with
        | [] => .error "list index out of range"
        | p0 :: rest =>
          let parts := p0 :: rest
          let generatedEmail :=
            if 2 ≤ parts.length then
              p0 ++ "." ++ rest.getLastD p0 ++ "@" ++ m.default_domain
            else p0 ++ "@" ++ m.default_domain
          .ok (some
            { primary_name := nameLower, email := generatedEmail, aliases := [name],
              first_name := some p0,
              last_name := some (if 2 ≤ parts.length then rest.getLastD p0 else "") })

/-- Embedding of `orchestrator_agent.get_attendee_emails`: resolve each
name with the default threshold and keep the nonempty addresses; an
exception from `fuzzy_match_name` propagates. -/
def get_attendee_emails (m : AttendeeMapping) : List String → Except String (List String)
  | [] => .ok []
  | n :: ns => do
    let a? ← fuzzy_match_name m n defaultThreshold
    let rest ← get_attendee_emails m ns
    match a? with
    | some a => if a.email = "" then .ok rest else .ok (a.email :: rest)
    | none => .ok rest

theorem find?_append_or {α : Type} (p : α → Bool) :
    ∀ (xs ys : List α), (xs ++ ys).find? p
      = match xs.find? p with
        | some a => some a
        | none => ys.find? p := by
  intro xs ys
  induction xs with
  | nil => simp
  | cons x xs ih =>
    by_cases hx : p x
    · simp [List.find?_cons, hx]
    · simp only [List.cons_append, List.find?_cons, hx]
      simpa [hx] using ih

theorem find?_map_pair {α β : Type} (f : α → β) (p : β → Bool) (l : List α) :
    (l.map f).find? p = (l.find? (fun x => p (f x))).map f := by
  induction l with
  | nil => simp
  | cons x xs ih =>
    by_cases hx : p (f x)
    · simp [List.find?_cons, hx]
    · simp only [List.map_cons, List.find?_cons, hx]
      simpa [hx] using ih

/-- Specification-style description of the fuzzy pass for the amended C4:
flatten all (attendee, alias) pairs in scan order and return the owner of
the first alias whose similarity is at or above the threshold. -/
def firstAliasAtOrAboveThreshold (m : AttendeeMapping) (nameLower : String) (threshold : ℚ) :
    Option AttendeeRecord :=
  ((m.attendees.flatMap (fun a => a.aliases.map (fun al => (a, al)))).find?
      (fun p => Difflib.ratioGe threshold nameLower.toList (pyLower p.2).toList)).map (fun p => p.1)

theorem fuzzyStage_eq_firstAlias (nameLower : String) (threshold : ℚ) :
    ∀ attendees : List AttendeeRecord,
      fuzzyStage attendees nameLower threshold
        = ((attendees.flatMap (fun a => a.aliases.map (fun al => (a, al)))).find?
            (fun p => Difflib.ratioGe threshold nameLower.toList (pyLower p.2).toList)).map
            (fun p => p.1) := by
  intro attendees
  induction attendees with
  | nil => simp [fuzzyStage]
  | cons a rest ih =>
    have hmapped : ((a.aliases.map (fun al => (a, al))).find?
          (fun p => Difflib.ratioGe threshold nameLower.toList (pyLower p.2).toList))
        = (a.aliases.find?
            (fun al => Difflib.ratioGe threshold nameLower.toList (pyLower al).toList)).map
            (fun al => (a, al)) :=
      find?_map_pair (fun al => (a, al)) _ a.aliases
    cases hfind : a.aliases.find?
        (fun al => Difflib.ratioGe threshold nameLower.toList (pyLower al).toList) with
    | some al =>
      have hany : a.aliases.any
          (fun al => Difflib.ratioGe threshold nameLower.toList (pyLower al).toList) = true :=
        List.any_eq_true.mpr ⟨al, List.mem_of_find?_eq_some hfind,
          List.find?_some (p := fun al =>
            Difflib.ratioGe threshold nameLower.toList (pyLower al).toList) hfind⟩
      rw [hfind] at hmapped
      simp only [fuzzyStage, List.find?_cons, hany, List.flatMap_cons]
      rw [find?_append_or, hmapped]
      rfl
    | none =>
      have hany : a.aliases.any
          (fun al => Difflib.ratioGe threshold nameLower.toList (pyLower al).toList) = false := by
        rw [List.any_eq_false]
        intro x hx
        exact fun hpx => (List.find?_eq_none.mp hfind x hx) hpx
      rw [hfind] at hmapped
      simp only [fuzzyStage, List.find?_cons, hany, List.flatMap_cons]
      rw [find?_append_or, hmapped]
      simpa [fuzzyStage] using ih

/-- Attendee table exhibiting the C4 counterexample.  The table is external
configuration (`attendee_mapping.json`); `fuzzy_match_name` resolves
against whatever table was loaded. -/
def c4Table : AttendeeMapping :=
  { attendees :=
      [ { primary_name := "aprim", email := "a@example.com", aliases := ["abcde"],
          first_name := none, last_name := none },
        { primary_name := "bprim", email := "b@example.com", aliases := ["abcdxy"],
          first_name := none, last_name := none } ],
    default_domain := "example.com" }

/-- The first record of `c4Table`. -/
def c4Aprim : AttendeeRecord :=
  { primary_name := "aprim", email := "a@example.com", aliases := ["abcde"],
    first_name := none, last_name := none }

/-- C4 as stated is false: for the input name "abcdx" against `c4Table`
there is no exact match, the alias "abcde" (owner "aprim") scores exactly
0.8 and the alias "abcdxy" (owner "bprim") scores 10/11, the highest score
at or above the threshold; the resolver nevertheless returns the "aprim"
record because it returns the first alias at or above the threshold in scan
order, not the highest-scoring one. -/
theorem c4_counterexample :
    fuzzy_match_name c4Table "abcdx" (mkRat 4 5) = .ok (some c4Aprim)
    ∧ exactMatch c4Table (pyStrip (pyLower "abcdx")) = none
    ∧ similarity "abcdx" "abcde" = mkRat 4 5
    ∧ similarity "abcdx" "abcdxy" = mkRat 10 11
    ∧ mkRat 4 5 < mkRat 10 11 := by
  refine ⟨by decide, by decide, ?_, ?_, by decide⟩
  · show Difflib.ratio "abcdx".toList "abcde".toList = mkRat 4 5
    have hM : Difflib.matchingTotal "abcdx".toList "abcde".toList
        ("abcdx".toList.length + 1) 0 "abcdx".toList.length 0 "abcde".toList.length = 4 := by
      decide
    unfold Difflib.ratio
    rw [if_neg (by decide : ¬("abcdx".toList.length + "abcde".toList.length = 0))]
    rw [hM, show "abcdx".toList.length = 5 from by decide,
      show "abcde".toList.length = 5 from by decide]
    rw [Rat.mkRat_eq_div]
    norm_num
  · show Difflib.ratio "abcdx".toList "abcdxy".toList = mkRat 10 11
    have hM : Difflib.matchingTotal "abcdx".toList "abcdxy".toList
        ("abcdx".toList.length + 1) 0 "abcdx".toList.length 0 "abcdxy".toList.length = 5 := by
      decide
    unfold Difflib.ratio
    rw [if_neg (by decide : ¬("abcdx".toList.length + "abcdxy".toList.length = 0))]
    rw [hM, show "abcdx".toList.length = 5 from by decide,
      show "abcdxy".toList.length = 6 from by decide]
    rw [Rat.mkRat_eq_div]
    norm_num

/-- C4 amended: whenever no exact case-insensitive primary-name or alias
match exists, the resolver returns the attendee owning the first alias (in
table scan order: attendees in listed order, each attendee's aliases in
listed order) whose similarity to the input is at or above the threshold,
rather than the attendee with the highest-scoring such alias
(`Difflib.ratioGe_iff` relates the integer-form comparison to the rational
similarity score). -/
theorem c4_amended (m : AttendeeMapping) (name : String) (threshold : ℚ) (a : AttendeeRecord)
    (hne : ¬ name = "")
    (hexact : exactMatch m (pyStrip (pyLower name)) = none)
    (hfirst : firstAliasAtOrAboveThreshold m (pyStrip (pyLower name)) threshold = some a) :
    fuzzy_match_name m name threshold = .ok (some a) := by
  have hstage : fuzzyStage m.attendees (pyStrip (pyLower name)) threshold = some a := by
    rw [fuzzyStage_eq_firstAlias]
    unfold firstAliasAtOrAboveThreshold at hfirst
    exact hfirst
  unfold fuzzy_match_name
  simp only [hne, if_false, hexact, hstage]

/-- Witness for C4 amended at the concrete counterexample table. -/
theorem c4_amended_witness :
    fuzzy_match_name c4Table "abcdx" (mkRat 4 5) = .ok (some c4Aprim) :=
  c4_amended c4Table "abcdx" (mkRat 4 5) c4Aprim (by decide) (by decide) (by decide)

/-- C5 as stated is false at the empty and the whitespace-only name: the
resolver returns no record for `""` (the falsy-name guard) and raises an
`IndexError` for `" "` (after lowering, stripping and splitting, `parts` is
empty and `parts[0]` is evaluated). -/
theorem c5_counterexample :
    fuzzy_match_name defaultAttendeeMapping " " defaultThreshold = .error "list index out of range"
    ∧ fuzzy_match_name defaultAttendeeMapping "" defaultThreshold = .ok none := by
  constructor
  · decide
  · decide

/-- C5 amended: for every name containing at least one non-whitespace
character, `fuzzy_match_name` terminates without raising and returns a
record with a nonempty address (provided, as in the shipped configuration,
every table record carries a nonempty address); a synthetic address built
from the name's tokens and the default domain is returned when nothing
matches.  Empty or whitespace-only names are excluded: the former yields no
record and the latter raises. -/
theorem c5_amended (m : AttendeeMapping) (name : String) (threshold : ℚ)
    (hmails : ∀ a ∈ m.attendees, ¬ a.email = "")
    (hch : ∃ c ∈ name.toList, isPyWs c = false) :
    ∃ a, fuzzy_match_name m name threshold = .ok (some a) ∧ ¬ a.email = "" := by
  have hne : ¬ name = "" := by
    intro h
    subst h
    rcases hch with ⟨c, hc, _⟩
    simp at hc
  have hlow : ∃ c ∈ (pyLower name).toList, isPyWs c = false := by
    rcases hch with ⟨c, hc, hcw⟩
    refine ⟨Char.toLower c, ?_, ?_⟩
    · show Char.toLower c ∈ name.toList.map Char.toLower
      exact List.mem_map_of_mem Char.toLower hc
    · rw [isPyWs_toLower]
      exact hcw
  have hstrip : ∃ c ∈ (pyStrip (pyLower name)).toList, isPyWs c = false :=
    exists_nonWs_pyStrip hlow
  have hsplit : splitWs (pyStrip (pyLower name)) ≠ [] := by
    unfold splitWs
    intro h
    rcases List.map_eq_nil_iff.mp h with h2
    exact splitWsFuel_ne_nil _ _ (Nat.lt_succ_self _) hstrip h2
  unfold fuzzy_match_name
  simp only [hne, if_false]
  cases hex : exactMatch m (pyStrip (pyLower name)) with
  | some a =>
    refine ⟨a, rfl, ?_⟩
    exact hmails a (List.mem_of_find?_eq_some hex)
  | none =>
    cases hstage : fuzzyStage m.attendees (pyStrip (pyLower name)) threshold with
    | some a =>
      refine ⟨a, rfl, ?_⟩
      exact hmails a (List.mem_of_find?_eq_some hstage)
    | none =>
      cases hp : splitWs (pyStrip (pyLower name)) with
      | nil => exact absurd hp hsplit
      | cons p0 rest =>
        refine ⟨_, rfl, ?_⟩
        by_cases hlen : 2 ≤ (p0 :: rest).length
        · simp only [hlen, if_true]
          intro hcontra
          have hlenz := congrArg String.length hcontra
          simp only [String.length_append] at hlenz
          have hat : ("@" : String).length = 1 := rfl
          have hemp : ("" : String).length = 0 := rfl
          omega
        · simp only [hlen, if_false]
          intro hcontra
          have hlenz := congrArg String.length hcontra
          simp only [String.length_append] at hlenz
          have hat : ("@" : String).length = 1 := rfl
          have hemp : ("" : String).length = 0 := rfl
          omega

/-- Witness for C5 amended: the unmapped name "John Smith" resolves (with
the default table and threshold) to a synthesized record with a nonempty
generated address. -/
theorem c5_amended_witness :
    ∃ a, fuzzy_match_name defaultAttendeeMapping "John Smith" defaultThreshold
        = .ok (some a) ∧ ¬ a.email = "" :=
  c5_amended defaultAttendeeMapping "John Smith" defaultThreshold
    (by decide) ⟨'J', by decide, by decide⟩

/-! ## Action Executor (`orchestrator_agent.py`,
`MeetingOrchestrator.execute_actions`)

The two-phase executor is embedded as a pure fold over the planned actions.
The remote calendar service consumed through `CalendarAgentTool` is an
oracle (`CalendarBackend`) whose `Except.error` values model raised
exceptions (transport failures, bad event ids); the remote mutations
attempted are recorded in a `RemoteCall` trace.  The clock is the explicit
`now` string.  Event dates are day indices of this file's minute timeline
(Python carries "YYYY-MM-DD" strings; a slot's `start.startswith(date)`
test is the day test `dayOf start = d` here). -/

open Calender

inductive ActionType where
  | add_notes
  | create_event
  | find_available_slot
  | update_event
deriving DecidableEq

/-- The string value of the `ActionType` member (the `str`-mixin enum's
value; only the value is modelled, not the version-dependent
`"ActionType.X"` rendering of `str()`). -/
def ActionType.value : ActionType → String
  | .add_notes => "add_notes"
  | .create_event => "create_event"
  | .find_available_slot => "find_available_slot"
  | .update_event => "update_event"

structure MeetingAction where
  action_type : ActionType
  calendar_event_id : Option String
  event_title : Option String
  event_date : Option Nat
  notes : Option String
  duration_minutes : Nat
  attendees : Option (List String)
  reasoning : String
deriving DecidableEq

structure ExecutionResult where
  timestamp : String
  status : String
  action_type : String
  message : String
  event_id : Option String
  technical_details : Option String
deriving DecidableEq

/-- Embedding of `MeetingOrchestrator._create_execution_result`. -/
def create_execution_result (now status action_type message : String)
    (event_id technical_details : Option String) : ExecutionResult :=
  { timestamp := now, status := status, action_type := action_type, message := message,
    event_id := event_id, technical_details := technical_details }

/-- Embedding of `OrchestratorState` (the fields the executor reads or
writes; `related_past_meetings` and `messages` carry opaque serialized
payloads). -/
structure OrchestratorState where
  audio_transcript : String
  workflow_id : String
  calendar_events : List CalendarEvent
  related_past_meetings : List String
  planned_actions : List MeetingAction
  execution_results : List ExecutionResult
  next_steps : List String
  messages : List String
  auto_execute : Bool
deriving DecidableEq

/-- Oracle for the remote calendar service as consumed by the executor:
`find_slots` is `CalendarAgentTool.find_available_slots` (which internally
fetches from the remote store and can therefore raise), `add_notes_remote`
and `update_remote` are the get+update round trips of
`add_notes_to_event` / `update_event`, and `create_remote` is
`create_event`.  `Except.error` carries the `str()` of the raised
exception. -/
structure CalendarBackend where
  find_slots : Nat → Nat → Nat → Except String (List TimeSlot)
  add_notes_remote : Option String → Option String → Except String String
  update_remote : Option String → String → Except String String
  create_remote : String → Nat → Nat → String → Option (List String) → Except String String

/-- Remote calendar mutations and queries attempted by the executor. -/
inductive RemoteCall where
  | findSlots (duration days_ahead max_slots : Nat)
  | addNotes (event_id : Option String) (notes : Option String)
  | updateEvent (event_id : Option String) (description : String)
  | createEvent (title : String) (start stop : Nat) (description : String)
      (attendees : Option (List String))
deriving DecidableEq

/-- Python truthiness fallback `x or d` for an optional string. -/
def pyOrStr (x : Option String) (d : String) : String :=
  match x with
  | none => d
  | some s => if s = "" then d else s

/-- Python string interpolation of an optional value (`None` prints as
"None"). -/
def pyShowOpt (x : Option String) : String :=
  match x with
  | none => "None"
  | some s => s

/-- Embedding of `CalendarAgentTool.add_notes_to_event`: the remote get and
update are wrapped in a `try`/`except` that converts any failure into a
`"Failed to add notes: ..."` message string, so the tool itself never
raises. -/
def add_notes_to_event (be : CalendarBackend) (event_id notes : Option String) : String :=
  match be.add_notes_remote event_id notes with
  | .ok summary => "Notes added to event '" ++ summary ++ "'"
  | .error e => "Failed to add notes: " ++ e

/-- Executor state: accumulated results, the shared available-slots buffer
of Phase 1, and the trace of attempted remote calls. -/
structure ExecSt where
  results : List ExecutionResult
  available_slots : List TimeSlot
  calls : List RemoteCall
deriving DecidableEq

/-- The `", ".join(f"{slot.start} ({slot.duration_minutes} min)")` detail
string. -/
def slotDetails (slots : List TimeSlot) : String :=
  String.intercalate ", "
    (slots.map (fun s => toString s.start ++ " (" ++ toString s.duration_minutes ++ " min)"))

/-- Phase 1 of `execute_actions`: one FIND_SLOT / ADD_NOTES / UPDATE_EVENT
action (CREATE_EVENT is skipped).  Each action body runs under its own
`try`: a raised exception becomes a single "error" result. -/
def phase1Step (be : CalendarBackend) (now : String) (st : ExecSt) (action : MeetingAction) :
    ExecSt :=
  match action.action_type with
  | .create_event => st
  | .find_available_slot =>
    let st := { st with calls := st.calls ++ [RemoteCall.findSlots action.duration_minutes 14 3] }
    match be.find_slots action.duration_minutes 14 3 with
    | .ok slots =>
      if slots.isEmpty then
        { st with results := st.results ++ [create_execution_result now "warning"
            "find_available_slot" "No available slots found in the next 14 days" none
            (some "Check calendar availability or extend search period")] }
      else
        { st with
          available_slots := slots,
          results := st.results ++ [create_execution_result now "success" "find_available_slot"
            ("Found " ++ toString slots.length ++ " available slots") none
            (some (slotDetails slots))] }
    | .error e =>
      { st with results := st.results ++ [create_execution_result now "error"
          action.action_type.value ("Failed to " ++ action.action_type.value) none (some e)] }
  | .add_notes =>
    let st := { st with calls := st.calls ++ [RemoteCall.addNotes action.calendar_event_id action.notes] }
    let r := add_notes_to_event be action.calendar_event_id action.notes
    { st with results := st.results ++ [create_execution_result now "success" "add_notes"
        ("Added notes to event " ++ pyShowOpt action.calendar_event_id)
        action.calendar_event_id (some r)] }
  | .update_event =>
    let desc := pyOrStr action.notes "Updated notes"
    let st := { st with calls := st.calls ++ [RemoteCall.updateEvent action.calendar_event_id desc] }
    match be.update_remote action.calendar_event_id desc with
    | .ok _ =>
      { st with results := st.results ++ [create_execution_result now "success" "update_event"
          "Updated event with new notes" action.calendar_event_id
          (some ("Event ID: " ++ pyShowOpt action.calendar_event_id))] }
    | .error e =>
      { st with results := st.results ++ [create_execution_result now "error"
          action.action_type.value ("Failed to " ++ action.action_type.value) none (some e)] }

/-- The tail of a CREATE_EVENT action once its start/end times are
resolved: attendee-name resolution (whose uncaught exception is converted
to an "error" result by the per-action handler), then the remote create. -/
def createCall (be : CalendarBackend) (m : AttendeeMapping) (now : String) (st : ExecSt)
    (action : MeetingAction) (startT stopT : Nat) : ExecSt :=
  let emails? : Except String (Option (List String)) :=
    match action.attendees with
    | none => .ok none
    | some names =>
      if names.isEmpty then .ok none
      else (get_attendee_emails m names).map (fun l => some l)
  match emails? with
  | .error e =>
    { st with results := st.results ++ [create_execution_result now "error" "create_event"
        ("Failed to create event '" ++ pyShowOpt action.event_title ++ "'") none (some e)] }
  | .ok emails =>
    let title := pyOrStr action.event_title "New Meeting"
    let desc := pyOrStr action.notes ""
    let st := { st with calls := st.calls ++ [RemoteCall.createEvent title startT stopT desc emails] }
    match be.create_remote title startT stopT desc emails with
    | .ok eid =>
      let attendee_info :=
        match emails with
        | some l => if l.isEmpty then "" else " with " ++ toString l.length ++ " attendees"
        | none => ""
      { st with results := st.results ++ [create_execution_result now "success" "create_event"
          ("Created event '" ++ pyShowOpt action.event_title ++ "'" ++ attendee_info)
          (some eid) (some ("Scheduled for " ++ toString startT))] }
    | .error e =>
      { st with results := st.results ++ [create_execution_result now "error" "create_event"
          ("Failed to create event '" ++ pyShowOpt action.event_title ++ "'") none (some e)] }

/-- Phase 2 of `execute_actions`: one CREATE_EVENT action (all other kinds
are skipped).  Time resolution: with a target date, query the slot finder
and keep slots on that date (earliest wins), else default to 14:00 on that
date (minute 840); with no date, use the head of Phase 1's shared buffer if
nonempty, else query for one fresh slot, and emit an "error" result if even
that yields nothing. -/
def phase2Step (be : CalendarBackend) (m : AttendeeMapping) (now : String)
    (st : ExecSt) (action : MeetingAction) : ExecSt :=
  match action.action_type with
  | .add_notes => st
  | .find_available_slot => st
  | .update_event => st
  | .create_event =>
    match action.event_date with
    | some d =>
      let st := { st with calls := st.calls ++ [RemoteCall.findSlots action.duration_minutes 14 10] }
      match be.find_slots action.duration_minutes 14 10 with
      | .error e =>
        { st with results := st.results ++ [create_execution_result now "error" "create_event"
            ("Failed to create event '" ++ pyShowOpt action.event_title ++ "'") none (some e)] }
      | .ok slots_on_date =>
        match (slots_on_date.filter (fun s => decide (dayOf s.start = d))) with
        | s :: _ => createCall be m now st action s.start s.stop
        | [] => createCall be m now st action (d * 1440 + 840)
            (d * 1440 + 840 + action.duration_minutes)
    | none =>
      match st.available_slots with
      | s :: _ => createCall be m now st action s.start s.stop
      | [] =>
        let st := { st with calls := st.calls ++ [RemoteCall.findSlots action.duration_minutes 14 1] }
        match be.find_slots action.duration_minutes 14 1 with
        | .error e =>
          { st with results := st.results ++ [create_execution_result now "error" "create_event"
              ("Failed to create event '" ++ pyShowOpt action.event_title ++ "'") none (some e)] }
        | .ok [] =>
          { st with results := st.results ++ [create_execution_result now "error" "create_event"
              "Cannot create event: No available slots found" none
              (some ("Title: " ++ pyShowOpt action.event_title))] }
        | .ok (s :: _) => createCall be m now st action s.start s.stop

/-- The synthetic warning result produced when auto-execute is off. -/
def pendingApprovalResult (now : String) : ExecutionResult :=
  create_execution_result now "warning" "pending_approval"
    "Actions planned but not executed - awaiting user approval" none
    (some "Manual approval required before execution")

/-- Embedding of `MeetingOrchestrator.execute_actions`: with auto-execute
off, replace the execution results with the single pending-approval warning
and perform no remote call; otherwise run Phase 1 over every action, then
Phase 2, and store the accumulated results. -/
def execute_actions (be : CalendarBackend) (m : AttendeeMapping) (now : String)
    (state : OrchestratorState) : OrchestratorState × List RemoteCall :=
  if state.auto_execute = false then
    ({ state with execution_results := [pendingApprovalResult now] }, [])
  else
    let st1 := state.planned_actions.foldl (phase1Step be now) ⟨[], [], []⟩
    let st2 := state.planned_actions.foldl (phase2Step be m now) st1
    ({ state with execution_results := st2.results }, st2.calls)


theorem createCall_results_length (be : CalendarBackend) (m : AttendeeMapping) (now : String)
    (st : ExecSt) (action : MeetingAction) (s1 s2 : Nat) :
    ((createCall be m now st action s1 s2).results).length = st.results.length + 1 := by
  unfold createCall
  rcases hat : action.attendees with _ | names
  · rcases hre : be.create_remote (pyOrStr action.event_title "New Meeting") s1 s2 (pyOrStr action.notes "") none with ee | eo
    · simp [hre]
    · simp [hre]
  · by_cases hne : names.isEmpty
    · rcases hre : be.create_remote (pyOrStr action.event_title "New Meeting") s1 s2 (pyOrStr action.notes "") none with ee | eo
      · simp [hne, hre]
      · simp [hne, hre]
    · rcases hg : get_attendee_emails m names with ge | gl
      · simp [hne, hg, Except.map]
      · rcases hre : be.create_remote (pyOrStr action.event_title "New Meeting") s1 s2 (pyOrStr action.notes "") (some gl) with ee | eo
        · simp [hne, hg, hre, Except.map]
        · simp [hne, hg, hre, Except.map]

theorem phase1Step_results_length (be : CalendarBackend) (now : String) (st : ExecSt)
    (action : MeetingAction) :
    ((phase1Step be now st action).results).length
      = st.results.length + (if action.action_type = ActionType.create_event then 0 else 1) := by
  rcases action with ⟨t, cid, et, ed, no, dm, at2, re⟩
  cases t
  · simp [phase1Step]
  · simp [phase1Step]
  · simp only [phase1Step]
    cases hbe : be.find_slots dm 14 3 with
    | ok slots =>
      by_cases hs : slots.isEmpty
      · simp [hs]
      · simp [hs]
    | error e => simp
  · simp only [phase1Step]
    cases hbe : be.update_remote cid (pyOrStr no "Updated notes") with
    | ok r => simp
    | error e => simp

theorem phase2Step_results_length (be : CalendarBackend) (m : AttendeeMapping) (now : String)
    (st : ExecSt) (action : MeetingAction) :
    ((phase2Step be m now st action).results).length
      = st.results.length + (if action.action_type = ActionType.create_event then 1 else 0) := by
  rcases action with ⟨t, cid, et, ed, no, dm, at2, re⟩
  cases t
  · simp [phase2Step]
  · simp only [phase2Step]
    cases ed with
    | some d =>
      simp only
      cases hbe : be.find_slots dm 14 10 with
      | ok slots =>
        cases hflt : slots.filter (fun s => decide (dayOf s.start = d)) with
        | nil => simp [hbe, hflt, createCall_results_length]
        | cons s srest => simp [hbe, hflt, createCall_results_length]
      | error e => simp [hbe]
    | none =>
      simp only
      cases hav : st.available_slots with
      | cons s srest => simp [hav, createCall_results_length]
      | nil =>
        cases hbe : be.find_slots dm 14 1 with
        | ok slots =>
          cases slots with
          | nil => simp [hav, hbe]
          | cons s srest => simp [hav, hbe, createCall_results_length]
        | error e => simp [hav, hbe]
  · simp [phase2Step]
  · simp [phase2Step]

theorem foldl_phase1_results_length (be : CalendarBackend) (now : String) :
    ∀ (actions : List MeetingAction) (st : ExecSt),
      ((actions.foldl (phase1Step be now) st).results).length
        = st.results.length
          + actions.countP (fun a => !decide (a.action_type = ActionType.create_event)) := by
  intro actions
  induction actions with
  | nil => intro st; simp
  | cons a rest ih =>
    intro st
    rw [List.foldl_cons, ih (phase1Step be now st a), phase1Step_results_length,
      List.countP_cons]
    by_cases h : a.action_type = ActionType.create_event
    · simp [h]
    · simp [h]
      omega

theorem foldl_phase2_results_length (be : CalendarBackend) (m : AttendeeMapping) (now : String) :
    ∀ (actions : List MeetingAction) (st : ExecSt),
      ((actions.foldl (phase2Step be m now) st).results).length
        = st.results.length
          + actions.countP (fun a => decide (a.action_type = ActionType.create_event)) := by
  intro actions
  induction actions with
  | nil => intro st; simp
  | cons a rest ih =>
    intro st
    rw [List.foldl_cons, ih (phase2Step be m now st a), phase2Step_results_length,
      List.countP_cons]
    by_cases h : a.action_type = ActionType.create_event
    · simp [h]
      omega
    · simp [h]

theorem countP_split (p : MeetingAction → Bool) :
    ∀ l : List MeetingAction, l.countP (fun a => !(p a)) + l.countP p = l.length := by
  intro l
  induction l with
  | nil => simp
  | cons a rest ih =>
    rw [List.countP_cons, List.countP_cons, List.length_cons]
    cases hc : p a
    · simp [hc]
      omega
    · simp [hc]
      omega

/-- Every planned action of the executor (with auto-execute on) yields
exactly one execution result: the result list has one entry per action,
regardless of which actions fail. -/
theorem execute_actions_results_length (be : CalendarBackend) (m : AttendeeMapping)
    (now : String) (state : OrchestratorState) (hauto : state.auto_execute = true) :
    ((execute_actions be m now state).1.execution_results).length
      = state.planned_actions.length := by
  unfold execute_actions
  rw [if_neg (by simp [hauto])]
  simp only
  rw [foldl_phase2_results_length, foldl_phase1_results_length]
  simp only [List.length_nil, Nat.zero_add]
  exact countP_split (fun a => decide (a.action_type = ActionType.create_event))
    state.planned_actions

/-- C6: if the auto-execute flag is false, the Action Executor produces
exactly one synthetic ExecutionResult with status "warning", performs no
remote calendar call of any kind (the remote-call trace is empty, so in
particular no create, update, add-notes or slot-finder call happens), and
leaves the planned actions, calendar events and related meetings
unchanged. -/
theorem c6_no_execute_frame (be : CalendarBackend) (m : AttendeeMapping) (now : String)
    (state : OrchestratorState) (h : state.auto_execute = false) :
    (execute_actions be m now state).1.execution_results = [pendingApprovalResult now]
    ∧ (pendingApprovalResult now).status = "warning"
    ∧ (execute_actions be m now state).2 = []
    ∧ (execute_actions be m now state).1.planned_actions = state.planned_actions
    ∧ (execute_actions be m now state).1.calendar_events = state.calendar_events
    ∧ (execute_actions be m now state).1.related_past_meetings = state.related_past_meetings := by
  unfold execute_actions
  rw [if_pos h]
  exact ⟨rfl, rfl, rfl, rfl, rfl, rfl⟩

/-- Backend and state for the C6 witness. -/
def idleBackend : CalendarBackend :=
  { find_slots := fun _ _ _ => .ok [],
    add_notes_remote := fun _ _ => .ok "s",
    update_remote := fun _ _ => .ok "id",
    create_remote := fun _ _ _ _ _ => .ok "E0" }

def c6Action : MeetingAction :=
  { action_type := .create_event, calendar_event_id := none, event_title := some "Sync",
    event_date := none, notes := none, duration_minutes := 60, attendees := none,
    reasoning := "" }

def c6State : OrchestratorState :=
  { audio_transcript := "t", workflow_id := "w", calendar_events := [],
    related_past_meetings := ["m1"], planned_actions := [c6Action],
    execution_results := [], next_steps := [], messages := [], auto_execute := false }

/-- Witness for C6 at a concrete state with auto-execute off. -/
theorem c6_no_execute_frame_witness :
    (execute_actions idleBackend defaultAttendeeMapping "T" c6State).1.execution_results
        = [pendingApprovalResult "T"]
    ∧ (pendingApprovalResult "T").status = "warning"
    ∧ (execute_actions idleBackend defaultAttendeeMapping "T" c6State).2 = []
    ∧ (execute_actions idleBackend defaultAttendeeMapping "T" c6State).1.planned_actions
        = c6State.planned_actions
    ∧ (execute_actions idleBackend defaultAttendeeMapping "T" c6State).1.calendar_events
        = c6State.calendar_events
    ∧ (execute_actions idleBackend defaultAttendeeMapping "T" c6State).1.related_past_meetings
        = c6State.related_past_meetings :=
  c6_no_execute_frame idleBackend defaultAttendeeMapping "T" c6State (by rfl)

def c7Backend : CalendarBackend :=
  { find_slots := fun _ _ _ => .ok [⟨540, 600, 60⟩],
    add_notes_remote := fun _ _ => .error "HttpError 404: event not found",
    update_remote := fun _ _ => .ok "x",
    create_remote := fun _ _ _ _ _ => .ok "evt42" }

def c7AddNotes : MeetingAction :=
  { action_type := .add_notes, calendar_event_id := some "bogus", event_title := none,
    event_date := none, notes := some "n", duration_minutes := 60, attendees := none,
    reasoning := "" }

def c7Create : MeetingAction :=
  { action_type := .create_event, calendar_event_id := none, event_title := some "Sync",
    event_date := none, notes := none, duration_minutes := 60, attendees := none,
    reasoning := "" }

def c7State : OrchestratorState :=
  { audio_transcript := "t", workflow_id := "w", calendar_events := [],
    related_past_meetings := [], planned_actions := [c7AddNotes, c7Create],
    execution_results := [], next_steps := [], messages := [], auto_execute := true }

/-- C7 as stated is false on its own verification scenario: for a batch of
one invalid ADD_NOTES (the remote lookup of the bogus event id raises)
followed by one valid CREATE_EVENT, both results are present and the
second is a success, but the first result's status is "success", not
"error": `add_notes_to_event` swallows the failure inside its own
`try`/`except` and returns a "Failed to add notes" message, which the
executor records as the technical details of a success result. -/
theorem c7_counterexample :
    ((execute_actions c7Backend defaultAttendeeMapping "T" c7State).1.execution_results).map
        (fun r => r.status) = ["success", "success"]
    ∧ ((execute_actions c7Backend defaultAttendeeMapping "T" c7State).1.execution_results).map
        (fun r => r.technical_details)
      = [some "Failed to add notes: HttpError 404: event not found",
         some "Scheduled for 540"] := by
  constructor
  · rfl
  · rfl

/-- C7 amended: a raising action never prevents execution of subsequent
actions in the same batch — with auto-execute on, the executor emits
exactly one result per planned action, whatever fails (final conjunct).
But a failing ADD_NOTES is not surfaced as an "error" result: the calendar
tool converts the raised remote failure into a message string, so the
batch of one invalid ADD_NOTES followed by one valid CREATE_EVENT yields
two results with statuses "success" and "success", the failure text
appearing only in the first result's technical details. -/
theorem c7_amended (be : CalendarBackend) (m : AttendeeMapping) (now : String)
    (state : OrchestratorState) (a1 a2 : MeetingAction) (e : String) (sl : TimeSlot)
    (slRest : List TimeSlot) (eid : String)
    (h1 : a1.action_type = ActionType.add_notes)
    (h2 : a2.action_type = ActionType.create_event)
    (h2d : a2.event_date = none) (h2a : a2.attendees = none)
    (hauto : state.auto_execute = true)
    (hplan : state.planned_actions = [a1, a2])
    (hfail : be.add_notes_remote a1.calendar_event_id a1.notes = .error e)
    (hfind : be.find_slots a2.duration_minutes 14 1 = .ok (sl :: slRest))
    (hcreate : be.create_remote (pyOrStr a2.event_title "New Meeting") sl.start sl.stop
        (pyOrStr a2.notes "") none = .ok eid) :
    ((execute_actions be m now state).1.execution_results).map (fun r => r.status)
        = ["success", "success"]
    ∧ ((execute_actions be m now state).1.execution_results).map (fun r => r.technical_details)
        = [some ("Failed to add notes: " ++ e), some ("Scheduled for " ++ toString sl.start)]
    ∧ ((execute_actions be m now state).1.execution_results).map (fun r => r.event_id)
        = [a1.calendar_event_id, some eid]
    ∧ ∀ state2 : OrchestratorState, state2.auto_execute = true →
        ((execute_actions be m now state2).1.execution_results).length
          = state2.planned_actions.length := by
  have hmain : (execute_actions be m now state).1.execution_results
      = [create_execution_result now "success" "add_notes"
          ("Added notes to event " ++ pyShowOpt a1.calendar_event_id) a1.calendar_event_id
          (some ("Failed to add notes: " ++ e)),
         create_execution_result now "success" "create_event"
          ("Created event '" ++ pyShowOpt a2.event_title ++ "'") (some eid)
          (some ("Scheduled for " ++ toString sl.start))] := by
    unfold execute_actions
    rw [if_neg (by simp [hauto])]
    simp only [hplan, List.foldl_cons, List.foldl_nil]
    simp only [phase1Step, h1, h2, add_notes_to_event, hfail]
    simp only [phase2Step, h1, h2, h2d]
    simp only [hfind]
    simp only [createCall, h2a, hcreate]
    simp
  refine ⟨?_, ?_, ?_, ?_⟩
  · rw [hmain]
    rfl
  · rw [hmain]
    rfl
  · rw [hmain]
    rfl
  · intro state2 h2auto
    exact execute_actions_results_length be m now state2 h2auto

/-- Witness for C7 amended at the concrete counterexample batch. -/
theorem c7_amended_witness :
    ((execute_actions c7Backend defaultAttendeeMapping "T" c7State).1.execution_results).map
        (fun r => r.status) = ["success", "success"]
    ∧ ((execute_actions c7Backend defaultAttendeeMapping "T" c7State).1.execution_results).map
        (fun r => r.event_id) = [some "bogus", some "evt42"] := by
  have h := c7_amended c7Backend defaultAttendeeMapping "T" c7State c7AddNotes c7Create
    "HttpError 404: event not found" ⟨540, 600, 60⟩ [] "evt42"
    rfl rfl rfl rfl rfl rfl rfl rfl rfl
  exact ⟨h.1, h.2.2.1⟩

/-- C10: in Phase 1, a successful FIND_SLOT overwrites the shared
available-slots buffer in its entirety (an unsuccessful one leaves it
untouched), so a Phase-2 CREATE_EVENT without a target date is scheduled
into the first slot found by the last successful FIND_SLOT of the batch:
with three FIND_SLOT actions of which the first two succeed with different
slot lists and the third finds nothing, the created event starts at the
head slot of the second list. -/
theorem c10_last_find_slot_wins (be : CalendarBackend) (m : AttendeeMapping) (now : String)
    (state : OrchestratorState) (f1 f2 f3 c : MeetingAction)
    (s1 s2 : TimeSlot) (L1 L2 : List TimeSlot) (eid : String)
    (hf1 : f1.action_type = ActionType.find_available_slot)
    (hf2 : f2.action_type = ActionType.find_available_slot)
    (hf3 : f3.action_type = ActionType.find_available_slot)
    (hc : c.action_type = ActionType.create_event)
    (hcd : c.event_date = none) (hca : c.attendees = none)
    (hauto : state.auto_execute = true)
    (hplan : state.planned_actions = [f1, f2, f3, c])
    (hL1 : be.find_slots f1.duration_minutes 14 3 = .ok (s1 :: L1))
    (hL2 : be.find_slots f2.duration_minutes 14 3 = .ok (s2 :: L2))
    (hL3 : be.find_slots f3.duration_minutes 14 3 = .ok [])
    (hcr : be.create_remote (pyOrStr c.event_title "New Meeting") s2.start s2.stop
        (pyOrStr c.notes "") none = .ok eid) :
    (execute_actions be m now state).2
      = [RemoteCall.findSlots f1.duration_minutes 14 3,
         RemoteCall.findSlots f2.duration_minutes 14 3,
         RemoteCall.findSlots f3.duration_minutes 14 3,
         RemoteCall.createEvent (pyOrStr c.event_title "New Meeting") s2.start s2.stop
           (pyOrStr c.notes "") none]
    ∧ ((execute_actions be m now state).1.execution_results).map (fun r => r.status)
      = ["success", "success", "warning", "success"]
    ∧ ((execute_actions be m now state).1.execution_results).map (fun r => r.event_id)
      = [none, none, none, some eid]
    ∧ ((execute_actions be m now state).1.execution_results).map (fun r => r.technical_details)
      = [some (slotDetails (s1 :: L1)), some (slotDetails (s2 :: L2)),
         some "Check calendar availability or extend search period",
         some ("Scheduled for " ++ toString s2.start)] := by
  have hmain : execute_actions be m now state
      = ({ state with execution_results :=
            [create_execution_result now "success" "find_available_slot"
              ("Found " ++ toString (s1 :: L1).length ++ " available slots") none
              (some (slotDetails (s1 :: L1))),
             create_execution_result now "success" "find_available_slot"
              ("Found " ++ toString (s2 :: L2).length ++ " available slots") none
              (some (slotDetails (s2 :: L2))),
             create_execution_result now "warning" "find_available_slot"
              "No available slots found in the next 14 days" none
              (some "Check calendar availability or extend search period"),
             create_execution_result now "success" "create_event"
              ("Created event '" ++ pyShowOpt c.event_title ++ "'") (some eid)
              (some ("Scheduled for " ++ toString s2.start))] },
         [RemoteCall.findSlots f1.duration_minutes 14 3,
          RemoteCall.findSlots f2.duration_minutes 14 3,
          RemoteCall.findSlots f3.duration_minutes 14 3,
          RemoteCall.createEvent (pyOrStr c.event_title "New Meeting") s2.start s2.stop
            (pyOrStr c.notes "") none]) := by
    unfold execute_actions
    rw [if_neg (by simp [hauto])]
    simp only [hplan, List.foldl_cons, List.foldl_nil]
    simp only [phase1Step, hf1, hf2, hf3, hc, hL1, hL2, hL3]
    simp only [List.isEmpty_cons, List.isEmpty_nil, if_true, if_false, Bool.false_eq_true]
    simp only [phase2Step, hf1, hf2, hf3, hc, hcd]
    simp only [createCall, hca, hcr]
    simp
  refine ⟨?_, ?_, ?_, ?_⟩
  · rw [show (execute_actions be m now state).2 = _ from congrArg Prod.snd hmain]
  · rw [show (execute_actions be m now state).1 = _ from congrArg Prod.fst hmain]
    rfl
  · rw [show (execute_actions be m now state).1 = _ from congrArg Prod.fst hmain]
    rfl
  · rw [show (execute_actions be m now state).1 = _ from congrArg Prod.fst hmain]
    rfl

def c10Find30 : MeetingAction :=
  { action_type := .find_available_slot, calendar_event_id := none, event_title := none,
    event_date := none, notes := none, duration_minutes := 30, attendees := none,
    reasoning := "" }

def c10Find45 : MeetingAction :=
  { action_type := .find_available_slot, calendar_event_id := none, event_title := none,
    event_date := none, notes := none, duration_minutes := 45, attendees := none,
    reasoning := "" }

def c10Find50 : MeetingAction :=
  { action_type := .find_available_slot, calendar_event_id := none, event_title := none,
    event_date := none, notes := none, duration_minutes := 50, attendees := none,
    reasoning := "" }

def c10Create : MeetingAction :=
  { action_type := .create_event, calendar_event_id := none, event_title := some "Planning",
    event_date := none, notes := none, duration_minutes := 45, attendees := none,
    reasoning := "" }

def c10Backend : CalendarBackend :=
  { find_slots := fun dur _ _ =>
      if dur = 30 then .ok [⟨540, 570, 30⟩]
      else if dur = 45 then .ok [⟨600, 645, 45⟩, ⟨700, 745, 45⟩]
      else .ok [],
    add_notes_remote := fun _ _ => .ok "s",
    update_remote := fun _ _ => .ok "id",
    create_remote := fun _ _ _ _ _ => .ok "E1" }

def c10State : OrchestratorState :=
  { audio_transcript := "t", workflow_id := "w", calendar_events := [],
    related_past_meetings := [],
    planned_actions := [c10Find30, c10Find45, c10Find50, c10Create],
    execution_results := [], next_steps := [], messages := [], auto_execute := true }

/-- Witness for C10: with two successful FIND_SLOTs (30- and 45-minute)
and a failed 50-minute one, the date-less CREATE_EVENT is scheduled at
minute 600 — the first slot of the last successful FIND_SLOT (the
45-minute one), not of the first. -/
theorem c10_last_find_slot_wins_witness :
    (execute_actions c10Backend defaultAttendeeMapping "T" c10State).2
      = [RemoteCall.findSlots 30 14 3, RemoteCall.findSlots 45 14 3,
         RemoteCall.findSlots 50 14 3,
         RemoteCall.createEvent "Planning" 600 645 "" none]
    ∧ ((execute_actions c10Backend defaultAttendeeMapping "T" c10State).1.execution_results).map
        (fun r => r.event_id) = [none, none, none, some "E1"] := by
  have h := c10_last_find_slot_wins c10Backend defaultAttendeeMapping "T" c10State
    c10Find30 c10Find45 c10Find50 c10Create ⟨540, 570, 30⟩ ⟨600, 645, 45⟩ []
    [⟨700, 745, 45⟩] "E1" rfl rfl rfl rfl rfl rfl rfl rfl rfl rfl rfl rfl
  exact ⟨h.1, h.2.2.1⟩

end Orchestrator

/-! ## Slot Finder overlap analysis (C3) -/

namespace Calender

/-- A returned slot overlapping a calendar event (intervals half-open on
the right). -/
def overlaps (s : TimeSlot) (e : CalendarEvent) : Prop :=
  s.start < e.stop ∧ e.start < s.stop

instance (s : TimeSlot) (e : CalendarEvent) : Decidable (overlaps s e) := by
  unfold overlaps
  infer_instance

theorem sweepDay_nil (dur maxSlots dayEnd cursor : Nat) (acc : List TimeSlot) :
    sweepDay dur maxSlots dayEnd [] cursor acc
      = if cursor + dur ≤ dayEnd
        then (acc ++ [⟨cursor, cursor + dur, dur⟩],
          decide (maxSlots ≤ (acc ++ [(⟨cursor, cursor + dur, dur⟩ : TimeSlot)]).length))
        else (acc, false) := by
  simp only [sweepDay]

theorem sweepDay_cons (dur maxSlots dayEnd : Nat) (e : CalendarEvent)
    (es : List CalendarEvent) (cursor : Nat) (acc : List TimeSlot) :
    sweepDay dur maxSlots dayEnd (e :: es) cursor acc
      = if cursor + dur ≤ e.start
        then (if maxSlots ≤ (acc ++ [(⟨cursor, cursor + dur, dur⟩ : TimeSlot)]).length
          then (acc ++ [⟨cursor, cursor + dur, dur⟩], true)
          else sweepDay dur maxSlots dayEnd es (max cursor e.stop)
            (acc ++ [⟨cursor, cursor + dur, dur⟩]))
        else sweepDay dur maxSlots dayEnd es (max cursor e.stop) acc := by
  simp only [sweepDay]

/-- Every slot produced by the per-day sweep either was in the accumulator
already, or starts at or after the sweep's cursor, has length `dur`, and
ends at or before either some remaining event's start or the working-day
end. -/
theorem sweepDay_new_slots (dur maxSlots dayEnd : Nat) :
    ∀ (evs : List CalendarEvent) (cursor : Nat) (acc : List TimeSlot),
      ∀ s ∈ (sweepDay dur maxSlots dayEnd evs cursor acc).1,
        s ∈ acc
        ∨ (cursor ≤ s.start ∧ s.stop = s.start + dur
            ∧ ((∃ e ∈ evs, s.stop ≤ e.start) ∨ s.stop ≤ dayEnd)) := by
  intro evs
  induction evs with
  | nil =>
    intro cursor acc s hs
    rw [sweepDay_nil] at hs
    by_cases hc : cursor + dur ≤ dayEnd
    · rw [if_pos hc] at hs
      simp only [List.mem_append, List.mem_singleton] at hs
      rcases hs with hs | rfl
      · exact Or.inl hs
      · exact Or.inr ⟨Nat.le_refl _, rfl, Or.inr hc⟩
    · rw [if_neg hc] at hs
      exact Or.inl hs
  | cons e es ih =>
    intro cursor acc s hs
    rw [sweepDay_cons] at hs
    by_cases hc : cursor + dur ≤ e.start
    · rw [if_pos hc] at hs
      by_cases hm : maxSlots ≤ (acc ++ [(⟨cursor, cursor + dur, dur⟩ : TimeSlot)]).length
      · rw [if_pos hm] at hs
        simp only [List.mem_append, List.mem_singleton] at hs
        rcases hs with hs | rfl
        · exact Or.inl hs
        · exact Or.inr ⟨Nat.le_refl _, rfl, Or.inl ⟨e, List.mem_cons_self e es, hc⟩⟩
      · rw [if_neg hm] at hs
        rcases ih (max cursor e.stop) (acc ++ [⟨cursor, cursor + dur, dur⟩]) s hs with hmem | hnew
        · simp only [List.mem_append, List.mem_singleton] at hmem
          rcases hmem with hmem | rfl
          · exact Or.inl hmem
          · exact Or.inr ⟨Nat.le_refl _, rfl, Or.inl ⟨e, List.mem_cons_self e es, hc⟩⟩
        · rcases hnew with ⟨hst, hstop, hrest⟩
          refine Or.inr ⟨Nat.le_trans (Nat.le_max_left _ _) hst, hstop, ?_⟩
          rcases hrest with ⟨e2, he2, hle⟩ | hend
          · exact Or.inl ⟨e2, List.mem_cons_of_mem e he2, hle⟩
          · exact Or.inr hend
    · rw [if_neg hc] at hs
      rcases ih (max cursor e.stop) acc s hs with hmem | hnew
      · exact Or.inl hmem
      · rcases hnew with ⟨hst, hstop, hrest⟩
        refine Or.inr ⟨Nat.le_trans (Nat.le_max_left _ _) hst, hstop, ?_⟩
        rcases hrest with ⟨e2, he2, hle⟩ | hend
        · exact Or.inl ⟨e2, List.mem_cons_of_mem e he2, hle⟩
        · exact Or.inr hend

/-- For a sorted day-event list, every slot the sweep emits either predates
a given event of the list (ends at or before its start) or postdates it
(starts at or after its end). -/
theorem sweepDay_no_overlap (dur maxSlots dayEnd : Nat) :
    ∀ (evs : List CalendarEvent), evs.Sorted startLE →
      ∀ e ∈ evs, ∀ (cursor : Nat) (acc : List TimeSlot),
        ∀ s ∈ (sweepDay dur maxSlots dayEnd evs cursor acc).1,
          s ∈ acc ∨ s.stop ≤ e.start ∨ e.stop ≤ s.start := by
  intro evs
  induction evs with
  | nil =>
    intro _ e he
    exact absurd he (List.not_mem_nil e)
  | cons e1 es ih =>
    intro hsorted e he cursor acc s hs
    have hsorted2 := List.sorted_cons.mp hsorted
    rw [sweepDay_cons] at hs
    by_cases hc : cursor + dur ≤ e1.start
    · rw [if_pos hc] at hs
      by_cases hm : maxSlots ≤ (acc ++ [(⟨cursor, cursor + dur, dur⟩ : TimeSlot)]).length
      · rw [if_pos hm] at hs
        simp only [List.mem_append, List.mem_singleton] at hs
        rcases hs with hs | rfl
        · exact Or.inl hs
        · refine Or.inr (Or.inl ?_)
          rcases List.mem_cons.mp he with rfl | hee
          · exact hc
          · exact Nat.le_trans hc (hsorted2.1 e hee)
      · rw [if_neg hm] at hs
        rcases List.mem_cons.mp he with rfl | hee
        · rcases sweepDay_new_slots dur maxSlots dayEnd es (max cursor e.stop)
              (acc ++ [⟨cursor, cursor + dur, dur⟩]) s hs with hmem | hnew
          · simp only [List.mem_append, List.mem_singleton] at hmem
            rcases hmem with hmem | rfl
            · exact Or.inl hmem
            · exact Or.inr (Or.inl hc)
          · exact Or.inr (Or.inr (Nat.le_trans (Nat.le_max_right _ _) hnew.1))
        · rcases ih hsorted2.2 e hee (max cursor e1.stop)
              (acc ++ [⟨cursor, cursor + dur, dur⟩]) s hs with hmem | hov
          · simp only [List.mem_append, List.mem_singleton] at hmem
            rcases hmem with hmem | rfl
            · exact Or.inl hmem
            · exact Or.inr (Or.inl (Nat.le_trans hc (hsorted2.1 e hee)))
          · exact Or.inr hov
    · rw [if_neg hc] at hs
      rcases List.mem_cons.mp he with rfl | hee
      · rcases sweepDay_new_slots dur maxSlots dayEnd es (max cursor e.stop) acc s hs
            with hmem | hnew
        · exact Or.inl hmem
        · exact Or.inr (Or.inr (Nat.le_trans (Nat.le_max_right _ _) hnew.1))
      · rcases ih hsorted2.2 e hee (max cursor e1.stop) acc s hs with hmem | hov
        · exact Or.inl hmem
        · exact Or.inr hov

theorem findSlotsGo_cons (events : List CalendarEvent)
    (dur workStart workEnd maxSlots : Nat) (skipW : Bool) (today baseWd off : Nat)
    (rest : List Nat) (acc : List TimeSlot) :
    findSlotsGo events dur workStart workEnd maxSlots skipW today baseWd (off :: rest) acc
      = if skipW ∧ 5 ≤ (baseWd + off) % 7 then
          findSlotsGo events dur workStart workEnd maxSlots skipW today baseWd rest acc
        else
          if (sweepDay dur maxSlots ((today + off) * 1440 + workEnd)
              (dayEventsOf events (today + off)) ((today + off) * 1440 + workStart) acc).2 then
            (sweepDay dur maxSlots ((today + off) * 1440 + workEnd)
              (dayEventsOf events (today + off)) ((today + off) * 1440 + workStart) acc).1
          else
            findSlotsGo events dur workStart workEnd maxSlots skipW today baseWd rest
              (sweepDay dur maxSlots ((today + off) * 1440 + workEnd)
                (dayEventsOf events (today + off)) ((today + off) * 1440 + workStart) acc).1 := by
  simp only [findSlotsGo]

theorem findSlotsGo_no_overlap (events : List CalendarEvent)
    (dur workStart workEnd maxSlots : Nat) (skipW : Bool) (today baseWd : Nat)
    (hwe : workEnd ≤ 1440)
    (hcontained : ∀ e ∈ events, e.stop ≤ dayOf e.start * 1440 + 1440) :
    ∀ (offsets : List Nat) (acc : List TimeSlot),
      (∀ s ∈ acc, ∀ e ∈ events, ¬ overlaps s e) →
      ∀ s ∈ findSlotsGo events dur workStart workEnd maxSlots skipW today baseWd offsets acc,
        ∀ e ∈ events, ¬ overlaps s e := by
  intro offsets
  induction offsets with
  | nil =>
    intro acc hacc s hs
    simp only [findSlotsGo] at hs
    exact hacc s hs
  | cons off rest ih =>
    intro acc hacc s hs
    rw [findSlotsGo_cons] at hs
    by_cases hskip : skipW = true ∧ 5 ≤ (baseWd + off) % 7
    · rw [if_pos hskip] at hs
      exact ih acc hacc s hs
    · rw [if_neg hskip] at hs
      have hgood : ∀ s2 ∈ (sweepDay dur maxSlots ((today + off) * 1440 + workEnd)
          (dayEventsOf events (today + off)) ((today + off) * 1440 + workStart) acc).1,
          ∀ e ∈ events, ¬ overlaps s2 e := by
        intro s2 hs2 e hee
        rcases sweepDay_new_slots dur maxSlots ((today + off) * 1440 + workEnd)
            (dayEventsOf events (today + off)) ((today + off) * 1440 + workStart) acc s2 hs2
            with hmem | hnew
        · exact hacc s2 hmem e hee
        · rcases hnew with ⟨hst, hstop, hbound⟩
          have hlow : (today + off) * 1440 ≤ s2.start :=
            Nat.le_trans (Nat.le_add_right _ _) hst
          have hhigh : s2.stop ≤ (today + off + 1) * 1440 := by
            rcases hbound with ⟨e2, he2, hle⟩ | hend
            · have he2f : e2 ∈ events.filter (fun e => decide (dayOf e.start = today + off)) :=
                ((List.perm_insertionSort startLE _).mem_iff).mp he2
              have hd2 : dayOf e2.start = today + off := by
                have hprop := List.of_mem_filter he2f
                simpa using hprop
              have hstartlt : e2.start < (today + off + 1) * 1440 := by
                have hmod := Nat.div_add_mod e2.start 1440
                have hmlt : e2.start % 1440 < 1440 := Nat.mod_lt _ (by norm_num)
                unfold dayOf at hd2
                omega
              omega
            · omega
          by_cases hday : dayOf e.start = today + off
          · have hein : e ∈ dayEventsOf events (today + off) := by
              unfold dayEventsOf
              refine ((List.perm_insertionSort startLE _).mem_iff).mpr ?_
              exact List.mem_filter.mpr ⟨hee, by simp [hday]⟩
            have hsorteddays : (dayEventsOf events (today + off)).Sorted startLE := by
              unfold dayEventsOf
              exact List.sorted_insertionSort startLE _
            rcases sweepDay_no_overlap dur maxSlots ((today + off) * 1440 + workEnd)
                (dayEventsOf events (today + off)) hsorteddays e hein
                ((today + off) * 1440 + workStart) acc s2 hs2 with hmem2 | hov
            · exact hacc s2 hmem2 e hee
            · intro hcontr
              rcases hcontr with ⟨h1, h2⟩
              rcases hov with h3 | h3 <;> omega
          · have hdlow : dayOf e.start * 1440 ≤ e.start := by
              unfold dayOf
              exact Nat.div_mul_le_self e.start 1440
            have hcont := hcontained e hee
            intro hcontr
            rcases hcontr with ⟨h1, h2⟩
            rcases Nat.lt_or_ge (dayOf e.start) (today + off) with hlt | hge
            · omega
            · have hgt : today + off < dayOf e.start :=
                Nat.lt_of_le_of_ne hge (fun hh => hday hh.symm)
              omega
      by_cases hflag : (sweepDay dur maxSlots ((today + off) * 1440 + workEnd)
          (dayEventsOf events (today + off)) ((today + off) * 1440 + workStart) acc).2 = true
      · rw [if_pos hflag] at hs
        exact hgood s hs
      · rw [if_neg hflag] at hs
        exact ih _ hgood s hs

/-- C3 amended: no returned TimeSlot overlaps any input event that is
contained in the calendar day its start timestamp falls on (events are
attributed to exactly that day); working hours must end by midnight.  The
counterexample below shows the restriction to day-contained events is
necessary: an event spanning past midnight is invisible to the following
days and can be overlapped. -/
theorem c3_no_overlap_day_contained (events : List CalendarEvent)
    (dur days workStart workEnd maxSlots : Nat) (skipW : Bool) (today baseWd : Nat)
    (hwe : workEnd ≤ 1440)
    (hcontained : ∀ e ∈ events, e.stop ≤ dayOf e.start * 1440 + 1440) :
    ∀ s ∈ find_available_slots events dur days workStart workEnd maxSlots skipW today baseWd,
      ∀ e ∈ events, ¬ overlaps s e := by
  intro s hs e hee
  exact findSlotsGo_no_overlap events dur workStart workEnd maxSlots skipW today baseWd hwe
    hcontained (List.range days) [] (fun s2 hs2 => absurd hs2 (List.not_mem_nil s2)) s hs e hee

/-- The overnight event of the C3 counterexample: it starts on day 0 at
22:00 (minute 1320) and ends on day 1 at 23:00 (minute 2820). -/
def c3Event : CalendarEvent :=
  { id := "e1", summary := "overnight", start := 1320, stop := 2820,
    description := none, location := none, attendees := none }

/-- C3 as stated is false: searching 2 days ahead with working hours
9:00-17:00 (minutes 540-1020), a 60-minute duration and the single
overnight event, the finder returns a slot on day 1 (minutes 1980-2040,
i.e. 9:00-10:00) that lies strictly inside the event's time range, because
the event is attributed only to day 0, the day its start falls on. -/
theorem c3_counterexample :
    find_available_slots [c3Event] 60 2 540 1020 5 true 0 0
      = [⟨540, 600, 60⟩, ⟨1980, 2040, 60⟩]
    ∧ overlaps ⟨1980, 2040, 60⟩ c3Event := by
  constructor
  · rfl
  · constructor
    · decide
    · decide

/-- Witness for C3 amended: with the same parameters but the event
truncated at midnight of its start day, no returned slot overlaps it. -/
theorem c3_no_overlap_day_contained_witness :
    ¬ overlaps ⟨540, 600, 60⟩
      { id := "e1", summary := "evening", start := 1320, stop := 1440,
        description := none, location := none, attendees := none } :=
  c3_no_overlap_day_contained
    [{ id := "e1", summary := "evening", start := 1320, stop := 1440,
       description := none, location := none, attendees := none }]
    60 2 540 1020 5 true 0 0 (by decide) (by decide)
    ⟨540, 600, 60⟩ (by decide)
    { id := "e1", summary := "evening", start := 1320, stop := 1440,
      description := none, location := none, attendees := none } (by decide)

end Calender

/-! ## Pipeline sequencing and progress events (C2)

`create_orchestrator_graph` wires the nine stages linearly (`START →
analyze_transcript → research_agent → fetch_calendar_context →
find_related_meetings → plan_actions → decision_agent →
risk_assessment_agent → execute_actions → generate_summary → END`), and
`graph.ainvoke` runs them strictly in sequence.  Each stage calls
`emit_workflow_event("stage_start", name, ...)` on entry and
`emit_workflow_event("stage_complete", name, ...)` on exit; an
unrecoverable exception (e.g. a `_call_nemotron` transport failure in
`analyze_transcript`, `find_related_meetings`, `plan_actions` or
`generate_summary`, or a `fetch_events` failure in
`fetch_calendar_context`, all of which sit outside the stage's `try`)
escapes the stage after its `stage_start`, and `run_orchestrator` has no
handler, so the exception propagates to the caller.  The model below
abstracts a run as the event trace produced for a choice of per-stage
outcomes. -/

namespace Orchestrator

/-- A progress event as built by `emit_workflow_event` (timestamp and
payload abstracted; the claims concern the event type and agent name).
The event types that occur in the code are exactly `stage_start` and
`stage_complete`. -/
structure WorkflowEvent where
  type : String
  agent : String
deriving DecidableEq

/-- Outcome of one pipeline stage: the stage body completes (emitting
`stage_complete`), or it raises an unrecoverable exception after
`stage_start` was emitted. -/
inductive StageOutcome where
  | completes
  | raises
deriving DecidableEq

/-- The agent names of the nine stages, in pipeline order, as passed to
`emit_workflow_event` in the source. -/
def stageAgentNames : List String :=
  ["Transcript Analyzer", "Research & Entity Extraction", "Calendar Context Fetch",
   "Related Meetings Finder", "Action Planner", "Decision Analyzer", "Risk Assessor",
   "Action Executor", "Summary Generator"]

/-- Events emitted by one stage run. -/
def stageEvents (name : String) (r : StageOutcome) : List WorkflowEvent :=
  match r with
  | .completes => [⟨"stage_start", name⟩, ⟨"stage_complete", name⟩]
  | .raises => [⟨"stage_start", name⟩]

/-- The event trace of the sequential pipeline: a raising stage halts the
run (its exception propagates out of `graph.ainvoke` and
`run_orchestrator`), so no later stage contributes events. -/
def runPipelineEvents : List (String × StageOutcome) → List WorkflowEvent
  | [] => []
  | (n, r) :: rest =>
    match r with
    | .completes => stageEvents n .completes ++ runPipelineEvents rest
    | .raises => stageEvents n .raises

/-- The event trace of `run_orchestrator` for a choice of per-stage
outcomes. -/
def run_orchestrator_events (outcome : String → StageOutcome) : List WorkflowEvent :=
  runPipelineEvents (stageAgentNames.map (fun n => (n, outcome n)))

/-- Outcome assignment in which the first stage suffers an unrecoverable
transport failure. -/
def c2FailFirst : String → StageOutcome := fun n =>
  if n = "Transcript Analyzer" then .raises else .completes

/-- C2 as stated is false at a concrete failing run: when the transcript
analysis stage suffers an unrecoverable transport failure, the run halts —
the trace is exactly that stage's `stage_start`, so no subsequent stage
runs — but no terminal `workflow_error` event is emitted (no event of that
type appears anywhere in the trace; the source never constructs one). -/
theorem c2_counterexample :
    run_orchestrator_events c2FailFirst = [⟨"stage_start", "Transcript Analyzer"⟩]
    ∧ (run_orchestrator_events c2FailFirst).all
        (fun ev => !(ev.type == "workflow_error")) = true := by
  constructor
  · rfl
  · rfl

/-- C2 amended: if a stage suffers an unrecoverable failure, the
Orchestrator halts and no subsequent stage runs — the trace consists of
the completed prefix's start/complete pairs followed by the failing
stage's `stage_start` only — and the failure propagates to the caller as
a raised exception; but no terminal `workflow_error` progress event is
emitted.  Indeed no run of the pipeline ever emits a `workflow_error`
event: the only event types produced are `stage_start` and
`stage_complete`. -/
theorem c2_amended (pre post : List (String × StageOutcome)) (n : String)
    (hpre : ∀ x ∈ pre, x.2 = StageOutcome.completes) :
    runPipelineEvents (pre ++ (n, StageOutcome.raises) :: post)
      = (pre.flatMap (fun x => stageEvents x.1 StageOutcome.completes))
        ++ [⟨"stage_start", n⟩]
    ∧ ∀ (tr : List (String × StageOutcome)),
        (runPipelineEvents tr).all (fun ev => !(ev.type == "workflow_error")) = true := by
  constructor
  · induction pre with
    | nil => simp [runPipelineEvents, stageEvents]
    | cons x rest ih =>
      have hx : x.2 = StageOutcome.completes := hpre x (List.mem_cons_self x rest)
      have hrest : ∀ y ∈ rest, y.2 = StageOutcome.completes :=
        fun y hy => hpre y (List.mem_cons_of_mem x hy)
      rcases x with ⟨xn, xr⟩
      simp only at hx
      subst hx
      simp only [List.cons_append, runPipelineEvents, List.flatMap_cons, List.append_eq]
      rw [ih hrest]
      simp
  · intro tr
    induction tr with
    | nil => rfl
    | cons x rest ih =>
      rcases x with ⟨xn, xr⟩
      cases xr
      · simp only [runPipelineEvents, stageEvents, List.all_append]
        rw [ih]
        rfl
      · rfl

/-- Witness for C2 amended: one completed stage, then a raising stage,
then a stage that never runs. -/
theorem c2_amended_witness :
    runPipelineEvents
        [("Transcript Analyzer", StageOutcome.completes),
         ("Research & Entity Extraction", StageOutcome.raises),
         ("Calendar Context Fetch", StageOutcome.completes)]
      = [⟨"stage_start", "Transcript Analyzer"⟩, ⟨"stage_complete", "Transcript Analyzer"⟩,
         ⟨"stage_start", "Research & Entity Extraction"⟩] := by
  have h := (c2_amended [("Transcript Analyzer", StageOutcome.completes)]
    [("Calendar Context Fetch", StageOutcome.completes)] "Research & Entity Extraction"
    (by decide)).1
  simp only [List.singleton_append] at h
  rw [h]
  rfl

end Orchestrator

/-! ## Structured Extractor (`MeetingOrchestrator._extract_json`)

The extractor works on the raw model output string; we embed it over
`List Char`.  Stages, in source order (orchestrator_agent.py:281-357):
think-block removal, the ```json fenced-block regex, the plain fenced
block regex, a bracket-balance scan for an array starting at the first
`[` of the text, the same scan for an object starting at the first `{`,
and finally the text itself. -/

namespace Extractor

/-- Index of the first occurrence of `pat` as a contiguous substring
(Python `str.find`); `none` when absent. -/
def findSubstrAux (pat : List Char) : List Char → Nat → Option Nat
  | [], i => if pat = [] then some i else none
  | c :: cs, i =>
    if pat.isPrefixOf (c :: cs) then some i else findSubstrAux pat cs (i + 1)

def findSubstr (s pat : List Char) : Option Nat := findSubstrAux pat s 0

/-- `re.sub(r'<think>.*?</think>', '', text, flags=re.DOTALL)`: repeatedly
remove the span from the leftmost `<think>` to the nearest following
`</think>`, continuing after the removed span (re.sub scans left to right
without rescanning).  Fuel-driven; `length + 1` fuel suffices since each
removal consumes at least 15 characters of the remaining text. -/
def stripThink : Nat → List Char → List Char
  | 0, s => s
  | fuel + 1, s =>
    match findSubstr s "<think>".toList with
    | none => s
    | some i =>
      match findSubstr (s.drop (i + 7)) "</think>".toList with
      | none => s
      | some j => s.take i ++ stripThink fuel (s.drop (i + 7 + j + 8))

/-- The character class `\s` of Python `re` (ASCII range). -/
def isReWs (c : Char) : Bool := PyStr.isPyWs c

/-- All indices at which `pat` occurs in `s`, ascending. -/
def allOccurrences (s pat : List Char) : List Nat :=
  (List.range (s.length + 1)).filter (fun i => pat.isPrefixOf (s.drop i))

/-- Largest index `k` in `t2` holding `close` such that the text after it
is `\s*` followed by three backticks — the position at which the greedy
`.*` of `(\{.*\}|\[.*\])\s*`+"```"  succeeds. -/
def fenceClose (t2 : List Char) (close : Char) : Option Nat :=
  ((List.range t2.length).filter (fun k =>
    t2.getD k ' ' = close
      && "```".toList.isPrefixOf ((t2.drop (k + 1)).dropWhile isReWs))).getLast?

/-- Match the capture group of the fenced-block regex starting just after
an occurrence of the opening literal at `pos`: skip `\s*`, require `{` or
`[` (the group's first character), and close greedily. -/
def fenceGroupAt (s : List Char) (pos : Nat) : Option (List Char) :=
  let t2 := (s.drop pos).dropWhile isReWs
  match t2 with
  | [] => none
  | c :: _ =>
    if c = '{' then (fenceClose t2 '}').map (fun k => t2.take (k + 1))
    else if c = '[' then (fenceClose t2 ']').map (fun k => t2.take (k + 1))
    else none

/-- `re.search` of the ```json fenced-block pattern: group of the
leftmost occurrence of the opening literal at which the rest of the
pattern matches. -/
def findJsonFence (s : List Char) : Option (List Char) :=
  (allOccurrences s "```json".toList).findSome? (fun p => fenceGroupAt s (p + 7))

/-- `re.search` of the plain fenced-block pattern. -/
def findAnyFence (s : List Char) : Option (List Char) :=
  (allOccurrences s "```".toList).findSome? (fun p => fenceGroupAt s (p + 3))

/-- Result of the bracket-balance scan: `found j` when the count returned
to zero at the character `j` positions after the scan's start, otherwise
the final `(count, in_string, escape)` state at the end of the text. -/
inductive ScanRes where
  | found : Nat → ScanRes
  | more : Int → Bool → Bool → ScanRes
deriving DecidableEq

/-- The character loop of the array/object scan, in the source's branch
order: pending escape, backslash, quote toggle, in-string skip, opening
bracket, closing bracket (returning when the count reaches zero), other.
The count is an `Int` as in Python; `n` is the index of the current
character relative to the scan's start. -/
def scanGo (bo bc : Char) : List Char → Int → Bool → Bool → Nat → ScanRes
  | [], cnt, inStr, esc, _ => ScanRes.more cnt inStr esc
  | c :: cs, cnt, inStr, esc, n =>
    if esc then scanGo bo bc cs cnt inStr false (n + 1)
    else if c = '\\' then scanGo bo bc cs cnt inStr true (n + 1)
    else if c = '"' then scanGo bo bc cs cnt (!inStr) false (n + 1)
    else if inStr then scanGo bo bc cs cnt inStr false (n + 1)
    else if c = bo then scanGo bo bc cs (cnt + 1) inStr false (n + 1)
    else if c = bc then
      if cnt - 1 = 0 then ScanRes.found n
      else scanGo bo bc cs (cnt - 1) inStr false (n + 1)
    else scanGo bo bc cs cnt inStr false (n + 1)

/-- The array (resp. object) extraction attempt: start at the first `[`
(resp. `{`) of the text — wherever it is, including inside a string
literal — and return `text[start : i+1]` if the balance ever returns to
zero. -/
def scanExtract (bo bc : Char) (t : List Char) : Option (List Char) :=
  match t.findIdx? (fun c => c = bo) with
  | none => none
  | some i =>
    match scanGo bo bc (t.drop i) 0 false false 0 with
    | ScanRes.found j => some ((t.drop i).take (j + 1))
    | ScanRes.more _ _ _ => none

/-- Embedding of `MeetingOrchestrator._extract_json`. -/
def extract_json (t : List Char) : List Char :=
  let t1 := stripThink (t.length + 1) t
  match findJsonFence t1 with
  | some g => g
  | none =>
    match findAnyFence t1 with
    | some g => g
    | none =>
      match scanExtract '[' ']' t1 with
      | some sp => sp
      | none =>
        match scanExtract '{' '}' t1 with
        | some sp => sp
        | none => t1

/-- If the opening literal never occurs, `stripThink` is the identity at
any fuel. -/
theorem stripThink_id (fuel : Nat) (s : List Char)
    (h : findSubstr s "<think>".toList = none) : stripThink fuel s = s := by
  cases fuel with
  | zero => rfl
  | succ n => simp only [stripThink, h]

/-- C8 as stated is false at a concrete input: `<think>x</think>hi`
contains no fenced block and no bracket structure (both fence searches
and both scans fail, on the input as well as on the stripped text), yet
the extractor returns `hi`, not the input unchanged — the think-block
removal happens before the fallback return. -/
theorem c8_counterexample :
    extract_json "<think>x</think>hi".toList = "hi".toList
    ∧ "hi".toList ≠ "<think>x</think>hi".toList
    ∧ findJsonFence "<think>x</think>hi".toList = none
    ∧ findAnyFence "<think>x</think>hi".toList = none
    ∧ scanExtract '[' ']' "<think>x</think>hi".toList = none
    ∧ scanExtract '{' '}' "<think>x</think>hi".toList = none := by
  exact ⟨rfl, by decide, rfl, rfl, rfl, rfl⟩

/-- C8 amended: the extractor returns its input unchanged when, in
addition to both fence searches and both bracket scans failing, the input
contains no `<think>` opener; with a think block present the fallback
returns the stripped text instead of the original input. -/
theorem c8_fallback_returns_input (t : List Char)
    (hthink : findSubstr t "<think>".toList = none)
    (hjf : findJsonFence t = none)
    (haf : findAnyFence t = none)
    (harr : scanExtract '[' ']' t = none)
    (hobj : scanExtract '{' '}' t = none) :
    extract_json t = t := by
  unfold extract_json
  rw [stripThink_id _ _ hthink]
  simp only [hjf, haf, harr, hobj]

/-- Witness for C8 amended at a concrete plain-prose input. -/
theorem c8_fallback_returns_input_witness :
    extract_json "no structured content here".toList
      = "no structured content here".toList := by
  exact c8_fallback_returns_input "no structured content here".toList
    rfl rfl rfl rfl rfl

end Extractor

/-! ### A reference JSON parser (C1)

To state that an extracted substring "parses as valid JSON" we embed the
grammar accepted by Python's `json.loads` (RFC 8259 values plus the
`NaN` / `Infinity` / `-Infinity` extensions that `json.loads` accepts by
default).  `parseRun` is a fuel-driven recursive-descent recogniser that
returns the consumed span and the remaining text; `isValidJson` accepts a
text that is exactly optional whitespace, one value, optional
whitespace. -/

namespace Extractor

/-- JSON whitespace (`json.decoder` skips over space, tab, newline,
carriage return). -/
def isJsonWs (c : Char) : Bool := c = ' ' || c = '\t' || c = '\n' || c = '\r'

/-- Split a leading whitespace run into (consumed, rest). -/
def skipWs (s : List Char) : List Char × List Char :=
  (s.takeWhile isJsonWs, s.dropWhile isJsonWs)

def isHexDigit (c : Char) : Bool :=
  c.isDigit || ('a' ≤ c && c ≤ 'f') || ('A' ≤ c && c ≤ 'F')

/-- Optional fraction `(\.[0-9]+)?` of the JSON number grammar, greedy;
returns (consumed, rest). -/
def fracPart (s : List Char) : List Char × List Char :=
  match s with
  | '.' :: cs =>
    if (cs.takeWhile Char.isDigit).isEmpty then ([], s)
    else ('.' :: cs.takeWhile Char.isDigit, cs.dropWhile Char.isDigit)
  | _ => ([], s)

/-- Optional exponent `([eE][+-]?[0-9]+)?` of the JSON number grammar,
greedy; returns (consumed, rest). -/
def expPart (s2 : List Char) : List Char × List Char :=
  match s2 with
  | c :: cs =>
    if c = 'e' ∨ c = 'E' then
      match cs with
      | d :: cs2 =>
        if d = '+' ∨ d = '-' then
          if (cs2.takeWhile Char.isDigit).isEmpty then ([], s2)
          else (c :: d :: cs2.takeWhile Char.isDigit, cs2.dropWhile Char.isDigit)
        else
          if (cs.takeWhile Char.isDigit).isEmpty then ([], s2)
          else (c :: cs.takeWhile Char.isDigit, cs.dropWhile Char.isDigit)
      | [] => ([], s2)
    else ([], s2)
  | [] => ([], s2)

/-- Fraction then exponent. -/
def numFracExp (s : List Char) : List Char × List Char :=
  ((fracPart s).1 ++ (expPart (fracPart s).2).1, (expPart (fracPart s).2).2)

/-- Consume a literal at the head of the input. -/
def matchLit (lit : List Char) (s : List Char) : Option (List Char × List Char) :=
  if lit.isPrefixOf s then some (lit, s.drop lit.length) else none

/-- The integer part `0 | [1-9][0-9]*` (or the `Infinity` constant, which
`json.loads` also accepts after a minus sign) followed by fraction and
exponent. -/
def parseNumberCore (s : List Char) : Option (List Char × List Char) :=
  match s with
  | [] => none
  | c :: cs =>
    if c = '0' then
      some ('0' :: (numFracExp cs).1, (numFracExp cs).2)
    else if c.isDigit then
      some (c :: (cs.takeWhile Char.isDigit ++ (numFracExp (cs.dropWhile Char.isDigit)).1),
        (numFracExp (cs.dropWhile Char.isDigit)).2)
    else if c = 'I' then (matchLit "nfinity".toList cs).map (fun q => ('I' :: q.1, q.2))
    else none

/-- A JSON number or numeric constant at the head of the input:
`-? core` where `core` also covers `Infinity`; the bare `NaN` and
`Infinity` constants are handled at value level. -/
def parseNumber (s : List Char) : Option (List Char × List Char) :=
  match s with
  | '-' :: cs => (parseNumberCore cs).map (fun q => ('-' :: q.1, q.2))
  | _ => parseNumberCore s

/-- Parse modes of the recursive-descent grammar: a value; the rest of a
string after its opening quote; the rest of an array after `[` (empty or
first element); after an element (`,` or `]`); the rest of an object
after `{`; after a key (`: value` then tail); after a member (`,` or
`}`). -/
inductive PMode where
  | value
  | strRest
  | arrayRest
  | arrayTail
  | objRest
  | objAfterKey
  | objTail
deriving DecidableEq

/-- Fuel-driven recogniser; `some (p, r)` means the mode's phrase was
consumed as `p` with remaining text `r`.  Fuel decreases on every
recursive call; `2 * length + 2` always suffices. -/
def parseRun : Nat → PMode → List Char → Option (List Char × List Char)
  | 0, _, _ => none
  | fuel + 1, PMode.value, s =>
    match s with
    | [] => none
    | c :: cs =>
      if c = '"' then (parseRun fuel PMode.strRest cs).map (fun q => ('"' :: q.1, q.2))
      else if c = '[' then (parseRun fuel PMode.arrayRest cs).map (fun q => ('[' :: q.1, q.2))
      else if c = '{' then (parseRun fuel PMode.objRest cs).map (fun q => ('{' :: q.1, q.2))
      else if c = 't' then (matchLit "rue".toList cs).map (fun q => ('t' :: q.1, q.2))
      else if c = 'f' then (matchLit "alse".toList cs).map (fun q => ('f' :: q.1, q.2))
      else if c = 'n' then (matchLit "ull".toList cs).map (fun q => ('n' :: q.1, q.2))
      else if c = 'N' then (matchLit "aN".toList cs).map (fun q => ('N' :: q.1, q.2))
      else parseNumber (c :: cs)
  | fuel + 1, PMode.strRest, s =>
    match s with
    | [] => none
    | c :: cs =>
      if c = '"' then some (['"'], cs)
      else if c = '\\' then
        match cs with
        | [] => none
        | e :: cs2 =>
          if e = 'u' then
            match cs2 with
            | h1 :: h2 :: h3 :: h4 :: cs3 =>
              if isHexDigit h1 && isHexDigit h2 && isHexDigit h3 && isHexDigit h4 then
                (parseRun fuel PMode.strRest cs3).map
                  (fun q => ('\\' :: 'u' :: h1 :: h2 :: h3 :: h4 :: q.1, q.2))
              else none
            | _ => none
          else if e = '"' ∨ e = '\\' ∨ e = '/' ∨ e = 'b' ∨ e = 'f' ∨ e = 'n' ∨ e = 'r' ∨ e = 't' then
            (parseRun fuel PMode.strRest cs2).map (fun q => ('\\' :: e :: q.1, q.2))
          else none
      else if c.toNat < 32 then none
      else (parseRun fuel PMode.strRest cs).map (fun q => (c :: q.1, q.2))
  | fuel + 1, PMode.arrayRest, s =>
    match (skipWs s).2 with
    | ']' :: r2 => some ((skipWs s).1 ++ [']'], r2)
    | r1 =>
      match parseRun fuel PMode.value r1 with
      | none => none
      | some (v, r2) =>
        match parseRun fuel PMode.arrayTail r2 with
        | none => none
        | some (tl, r3) => some ((skipWs s).1 ++ (v ++ tl), r3)
  | fuel + 1, PMode.arrayTail, s =>
    match (skipWs s).2 with
    | ']' :: r2 => some ((skipWs s).1 ++ [']'], r2)
    | ',' :: r2 =>
      match parseRun fuel PMode.value (skipWs r2).2 with
      | none => none
      | some (v, r3) =>
        match parseRun fuel PMode.arrayTail r3 with
        | none => none
        | some (tl, r4) => some ((skipWs s).1 ++ ',' :: ((skipWs r2).1 ++ (v ++ tl)), r4)
    | _ => none
  | fuel + 1, PMode.objRest, s =>
    match (skipWs s).2 with
    | '}' :: r2 => some ((skipWs s).1 ++ ['}'], r2)
    | '"' :: r2 =>
      match parseRun fuel PMode.strRest r2 with
      | none => none
      | some (k, r3) =>
        match parseRun fuel PMode.objAfterKey r3 with
        | none => none
        | some (q, r4) => some ((skipWs s).1 ++ '"' :: (k ++ q), r4)
    | _ => none
  | fuel + 1, PMode.objAfterKey, s =>
    match (skipWs s).2 with
    | ':' :: r2 =>
      match parseRun fuel PMode.value (skipWs r2).2 with
      | none => none
      | some (v, r3) =>
        match parseRun fuel PMode.objTail r3 with
        | none => none
        | some (tl, r4) => some ((skipWs s).1 ++ ':' :: ((skipWs r2).1 ++ (v ++ tl)), r4)
    | _ => none
  | fuel + 1, PMode.objTail, s =>
    match (skipWs s).2 with
    | '}' :: r2 => some ((skipWs s).1 ++ ['}'], r2)
    | ',' :: r2 =>
      match (skipWs r2).2 with
      | '"' :: r3 =>
        match parseRun fuel PMode.strRest r3 with
        | none => none
        | some (k, r4) =>
          match parseRun fuel PMode.objAfterKey r4 with
          | none => none
          | some (q, r5) => some ((skipWs s).1 ++ ',' :: ((skipWs r2).1 ++ '"' :: (k ++ q)), r5)
      | _ => none
    | _ => none

/-- `json.loads` succeeds on the text: optional leading whitespace, one
value, optional trailing whitespace. -/
def isValidJson (s : List Char) : Bool :=
  match parseRun (2 * s.length + 2) PMode.value (skipWs s).2 with
  | some (_, r) => ((skipWs r).2).isEmpty
  | none => false

end Extractor

/-! ### Span reassembly: a successful parse consumes a prefix -/

namespace Extractor

theorem skipWs_append (s : List Char) : (skipWs s).1 ++ (skipWs s).2 = s :=
  List.takeWhile_append_dropWhile isJsonWs s

theorem matchLit_eq (lit s p r : List Char) (h : matchLit lit s = some (p, r)) :
    p = lit ∧ lit ++ r = s := by
  unfold matchLit at h
  by_cases hp : lit.isPrefixOf s
  · rw [if_pos hp] at h
    simp only [Option.some.injEq, Prod.mk.injEq] at h
    obtain ⟨h1, h2⟩ := h
    obtain ⟨t, ht⟩ := List.isPrefixOf_iff_prefix.mp hp
    refine ⟨h1.symm, ?_⟩
    rw [← h2, ← ht, List.drop_left]
  · rw [if_neg hp] at h
    exact absurd h (by simp)

theorem fracPart_append (s : List Char) : (fracPart s).1 ++ (fracPart s).2 = s := by
  unfold fracPart
  split
  · rename_i cs
    by_cases he : (cs.takeWhile Char.isDigit).isEmpty
    · simp [he]
    · simp [he, List.takeWhile_append_dropWhile]
  · simp

theorem expPart_append (s2 : List Char) : (expPart s2).1 ++ (expPart s2).2 = s2 := by
  match s2 with
  | [] => rfl
  | c :: cs =>
    by_cases hc : c = 'e' ∨ c = 'E'
    · match cs with
      | [] => simp [expPart, hc]
      | d :: cs2 =>
        by_cases hd : d = '+' ∨ d = '-'
        · by_cases he : (cs2.takeWhile Char.isDigit).isEmpty
          · simp [expPart, hc, hd, he]
          · simp [expPart, hc, hd, he, List.takeWhile_append_dropWhile]
        · by_cases he : ((d :: cs2).takeWhile Char.isDigit).isEmpty
          · simp [expPart, hc, hd, he]
          · simp only [expPart, if_pos hc, if_neg hd, if_neg he]
            simp [List.takeWhile_append_dropWhile]
    · simp [expPart, hc]

theorem numFracExp_append (s : List Char) : (numFracExp s).1 ++ (numFracExp s).2 = s := by
  unfold numFracExp
  rw [List.append_assoc, expPart_append, fracPart_append]

theorem parseNumberCore_append (s p r : List Char) (h : parseNumberCore s = some (p, r)) :
    p ++ r = s := by
  match s with
  | [] => exact absurd h (by simp [parseNumberCore])
  | c :: cs =>
    simp only [parseNumberCore] at h
    by_cases h0 : c = '0'
    · rw [if_pos h0] at h
      simp only [Option.some.injEq, Prod.mk.injEq] at h
      obtain ⟨h1, h2⟩ := h
      subst h0
      rw [← h1, ← h2]
      simp [numFracExp_append]
    · rw [if_neg h0] at h
      by_cases hd : c.isDigit
      · rw [if_pos hd] at h
        simp only [Option.some.injEq, Prod.mk.injEq] at h
        obtain ⟨h1, h2⟩ := h
        rw [← h1, ← h2]
        simp only [List.cons_append, List.append_assoc, numFracExp_append]
        rw [List.takeWhile_append_dropWhile]
      · rw [if_neg hd] at h
        by_cases hI : c = 'I'
        · rw [if_pos hI] at h
          rw [Option.map_eq_some'] at h
          obtain ⟨⟨p1, r1⟩, hm, heq⟩ := h
          simp only [Prod.mk.injEq] at heq
          obtain ⟨hp1, hr1⟩ := heq
          obtain ⟨hl, ha⟩ := matchLit_eq _ _ _ _ hm
          subst hl
          rw [← hp1, ← hr1, hI]
          simpa using ha
        · rw [if_neg hI] at h
          exact absurd h (by simp)

theorem parseNumber_append (s p r : List Char) (h : parseNumber s = some (p, r)) :
    p ++ r = s := by
  unfold parseNumber at h
  split at h
  · rename_i cs
    rw [Option.map_eq_some'] at h
    obtain ⟨⟨p1, r1⟩, hc, heq⟩ := h
    simp only [Prod.mk.injEq] at heq
    obtain ⟨hp1, hr1⟩ := heq
    have := parseNumberCore_append cs p1 r1 hc
    rw [← hp1, ← hr1]
    simpa using this
  · exact parseNumberCore_append _ _ _ h

end Extractor

namespace Extractor

theorem parseRun_append :
    ∀ (fuel : Nat) (m : PMode) (s p r : List Char),
      parseRun fuel m s = some (p, r) → p ++ r = s := by
  intro fuel
  induction fuel with
  | zero => intro m s p r h; exact absurd h (by simp [parseRun])
  | succ fuel ih =>
    intro m s p r h
    cases m with
    | value =>
      simp only [parseRun] at h
      split at h
      · simp at h
      · rename_i c cs
        split_ifs at h with hq hbo hbr ht hf hn hN
        · rw [Option.map_eq_some'] at h
          obtain ⟨⟨p1, r1⟩, hm, heq⟩ := h
          simp only [Prod.mk.injEq] at heq
          obtain ⟨h1, h2⟩ := heq
          subst h1; subst h2
          simpa [hq] using ih _ _ _ _ hm
        · rw [Option.map_eq_some'] at h
          obtain ⟨⟨p1, r1⟩, hm, heq⟩ := h
          simp only [Prod.mk.injEq] at heq
          obtain ⟨h1, h2⟩ := heq
          subst h1; subst h2
          simpa [hbo] using ih _ _ _ _ hm
        · rw [Option.map_eq_some'] at h
          obtain ⟨⟨p1, r1⟩, hm, heq⟩ := h
          simp only [Prod.mk.injEq] at heq
          obtain ⟨h1, h2⟩ := heq
          subst h1; subst h2
          simpa [hbr] using ih _ _ _ _ hm
        · rw [Option.map_eq_some'] at h
          obtain ⟨⟨p1, r1⟩, hm, heq⟩ := h
          simp only [Prod.mk.injEq] at heq
          obtain ⟨h1, h2⟩ := heq
          subst h1; subst h2
          obtain ⟨hl, ha⟩ := matchLit_eq _ _ _ _ hm
          subst hl
          simpa [ht] using ha
        · rw [Option.map_eq_some'] at h
          obtain ⟨⟨p1, r1⟩, hm, heq⟩ := h
          simp only [Prod.mk.injEq] at heq
          obtain ⟨h1, h2⟩ := heq
          subst h1; subst h2
          obtain ⟨hl, ha⟩ := matchLit_eq _ _ _ _ hm
          subst hl
          simpa [hf] using ha
        · rw [Option.map_eq_some'] at h
          obtain ⟨⟨p1, r1⟩, hm, heq⟩ := h
          simp only [Prod.mk.injEq] at heq
          obtain ⟨h1, h2⟩ := heq
          subst h1; subst h2
          obtain ⟨hl, ha⟩ := matchLit_eq _ _ _ _ hm
          subst hl
          simpa [hn] using ha
        · rw [Option.map_eq_some'] at h
          obtain ⟨⟨p1, r1⟩, hm, heq⟩ := h
          simp only [Prod.mk.injEq] at heq
          obtain ⟨h1, h2⟩ := heq
          subst h1; subst h2
          obtain ⟨hl, ha⟩ := matchLit_eq _ _ _ _ hm
          subst hl
          simpa [hN] using ha
        · exact parseNumber_append _ _ _ h
    | strRest =>
      simp only [parseRun] at h
      split at h
      · simp at h
      · rename_i c cs
        by_cases hq : c = '"'
        · rw [if_pos hq] at h
          simp only [Option.some.injEq, Prod.mk.injEq] at h
          obtain ⟨h1, h2⟩ := h
          subst h1; subst h2
          simp [hq]
        · rw [if_neg hq] at h
          by_cases hbs : c = '\\'
          · rw [if_pos hbs] at h
            split at h
            · simp at h
            · rename_i e cs2
              by_cases hu : e = 'u'
              · rw [if_pos hu] at h
                split at h
                · rename_i a1 a2 a3 a4 cs3
                  split_ifs at h with hhex
                  · rw [Option.map_eq_some'] at h
                    obtain ⟨⟨p1, r1⟩, hm, heq⟩ := h
                    simp only [Prod.mk.injEq] at heq
                    obtain ⟨h1, h2⟩ := heq
                    subst h1; subst h2
                    simpa [hbs, hu] using ih _ _ _ _ hm
                · simp at h
              · rw [if_neg hu] at h
                split_ifs at h with hesc
                · rw [Option.map_eq_some'] at h
                  obtain ⟨⟨p1, r1⟩, hm, heq⟩ := h
                  simp only [Prod.mk.injEq] at heq
                  obtain ⟨h1, h2⟩ := heq
                  subst h1; subst h2
                  simpa [hbs] using ih _ _ _ _ hm
          · rw [if_neg hbs] at h
            by_cases hctl : c.toNat < 32
            · rw [if_pos hctl] at h
              simp at h
            · rw [if_neg hctl] at h
              rw [Option.map_eq_some'] at h
              obtain ⟨⟨p1, r1⟩, hm, heq⟩ := h
              simp only [Prod.mk.injEq] at heq
              obtain ⟨h1, h2⟩ := heq
              subst h1; subst h2
              simpa using ih _ _ _ _ hm
    | arrayRest =>
      simp only [parseRun] at h
      split at h
      · rename_i r2 heq
        simp only [Option.some.injEq, Prod.mk.injEq] at h
        obtain ⟨h1, h2⟩ := h
        subst h1; subst h2
        have e1 := skipWs_append s
        rw [heq] at e1
        conv_rhs => rw [← e1]
        simp
      · rename_i hne
        split at h
        · simp at h
        · rename_i v r2 hv
          split at h
          · simp at h
          · rename_i tl r3 htl
            simp only [Option.some.injEq, Prod.mk.injEq] at h
            obtain ⟨h1, h2⟩ := h
            subst h1; subst h2
            have ihv := ih _ _ _ _ hv
            have iht := ih _ _ _ _ htl
            have e1 := skipWs_append s
            rw [← ihv, ← iht] at e1
            conv_rhs => rw [← e1]
            simp
    | arrayTail =>
      simp only [parseRun] at h
      split at h
      · rename_i r2 heq
        simp only [Option.some.injEq, Prod.mk.injEq] at h
        obtain ⟨h1, h2⟩ := h
        subst h1; subst h2
        have e1 := skipWs_append s
        rw [heq] at e1
        conv_rhs => rw [← e1]
        simp
      · rename_i r2 heq
        split at h
        · simp at h
        · rename_i v r3 hv
          split at h
          · simp at h
          · rename_i tl r4 htl
            simp only [Option.some.injEq, Prod.mk.injEq] at h
            obtain ⟨h1, h2⟩ := h
            subst h1; subst h2
            have ihv := ih _ _ _ _ hv
            have iht := ih _ _ _ _ htl
            have e1 := skipWs_append s
            rw [heq] at e1
            have e2 := skipWs_append r2
            rw [← ihv, ← iht] at e2
            rw [← e2] at e1
            conv_rhs => rw [← e1]
            simp
      · simp at h
    | objRest =>
      simp only [parseRun] at h
      split at h
      · rename_i r2 heq
        simp only [Option.some.injEq, Prod.mk.injEq] at h
        obtain ⟨h1, h2⟩ := h
        subst h1; subst h2
        have e1 := skipWs_append s
        rw [heq] at e1
        conv_rhs => rw [← e1]
        simp
      · rename_i r2 heq
        split at h
        · simp at h
        · rename_i k r3 hk
          split at h
          · simp at h
          · rename_i q r4 hq
            simp only [Option.some.injEq, Prod.mk.injEq] at h
            obtain ⟨h1, h2⟩ := h
            subst h1; subst h2
            have ihk := ih _ _ _ _ hk
            have ihq := ih _ _ _ _ hq
            have e1 := skipWs_append s
            rw [heq] at e1
            rw [← ihk, ← ihq] at e1
            conv_rhs => rw [← e1]
            simp
      · simp at h
    | objAfterKey =>
      simp only [parseRun] at h
      split at h
      · rename_i r2 heq
        split at h
        · simp at h
        · rename_i v r3 hv
          split at h
          · simp at h
          · rename_i tl r4 htl
            simp only [Option.some.injEq, Prod.mk.injEq] at h
            obtain ⟨h1, h2⟩ := h
            subst h1; subst h2
            have ihv := ih _ _ _ _ hv
            have iht := ih _ _ _ _ htl
            have e1 := skipWs_append s
            rw [heq] at e1
            have e2 := skipWs_append r2
            rw [← ihv, ← iht] at e2
            rw [← e2] at e1
            conv_rhs => rw [← e1]
            simp
      · simp at h
    | objTail =>
      simp only [parseRun] at h
      split at h
      · rename_i r2 heq
        simp only [Option.some.injEq, Prod.mk.injEq] at h
        obtain ⟨h1, h2⟩ := h
        subst h1; subst h2
        have e1 := skipWs_append s
        rw [heq] at e1
        conv_rhs => rw [← e1]
        simp
      · rename_i r2 heq
        split at h
        · rename_i r3 heq2
          split at h
          · simp at h
          · rename_i k r4 hk
            split at h
            · simp at h
            · rename_i q r5 hq
              simp only [Option.some.injEq, Prod.mk.injEq] at h
              obtain ⟨h1, h2⟩ := h
              subst h1; subst h2
              have ihk := ih _ _ _ _ hk
              have ihq := ih _ _ _ _ hq
              have e1 := skipWs_append s
              rw [heq] at e1
              have e2 := skipWs_append r2
              rw [heq2] at e2
              rw [← ihk, ← ihq] at e2
              rw [← e2] at e1
              conv_rhs => rw [← e1]
              simp
        · simp at h
      · simp at h

end Extractor

/-! ### Characters the bracket scan ignores outside strings -/

namespace Extractor

/-- Characters that the bracket scan treats as no-ops outside strings:
not a quote, backslash, bracket or brace. -/
def inert (c : Char) : Bool :=
  !(c = '"' || c = '\\' || c = '[' || c = ']' || c = '{' || c = '}')

theorem inert_elim (c : Char) (h : inert c = true) :
    ¬c = '"' ∧ ¬c = '\\' ∧ ¬c = '[' ∧ ¬c = ']' ∧ ¬c = '{' ∧ ¬c = '}' := by
  simp only [inert, Bool.not_eq_eq_eq_not, Bool.not_true, Bool.or_eq_false_iff,
    decide_eq_false_iff_not] at h
  exact ⟨h.1.1.1.1.1, h.1.1.1.1.2, h.1.1.1.2, h.1.1.2, h.1.2, h.2⟩

theorem inert_false (c : Char) (h : inert c = false) :
    c = '"' ∨ c = '\\' ∨ c = '[' ∨ c = ']' ∨ c = '{' ∨ c = '}' := by
  simp only [inert, Bool.not_eq_eq_eq_not, Bool.not_false, Bool.or_eq_true,
    decide_eq_true_eq] at h
  tauto

theorem digit_inert (c : Char) (h : c.isDigit = true) : inert c = true := by
  cases hi : inert c
  · exfalso
    rcases inert_false c hi with he | he | he | he | he | he <;> subst he <;>
      exact absurd h (by decide)
  · rfl

theorem ws_inert (c : Char) (h : isJsonWs c = true) : inert c = true := by
  cases hi : inert c
  · exfalso
    rcases inert_false c hi with he | he | he | he | he | he <;> subst he <;>
      exact absurd h (by decide)
  · rfl

theorem hexDigit_ne (c : Char) (h : isHexDigit c = true) : ¬c = '"' ∧ ¬c = '\\' := by
  constructor <;> intro he <;> subst he <;> exact absurd h (by decide)

theorem skipWs_fst_inert (s : List Char) : ∀ c ∈ (skipWs s).1, inert c = true :=
  fun c hc => ws_inert c (List.mem_takeWhile_imp hc)

theorem fracPart_inert (s : List Char) : ∀ c ∈ (fracPart s).1, inert c = true := by
  unfold fracPart
  split
  · rename_i cs
    by_cases he : (cs.takeWhile Char.isDigit).isEmpty
    · simp [he]
    · rw [if_neg he]
      intro c hc
      simp only [List.mem_cons] at hc
      rcases hc with hc | hc
      · subst hc; decide
      · exact digit_inert c (List.mem_takeWhile_imp hc)
  · simp

theorem expPart_inert (s2 : List Char) : ∀ c ∈ (expPart s2).1, inert c = true := by
  unfold expPart
  split
  · rename_i c0 cs
    by_cases hc : c0 = 'e' ∨ c0 = 'E'
    · rw [if_pos hc]
      split
      · rename_i d cs2
        by_cases hd : d = '+' ∨ d = '-'
        · rw [if_pos hd]
          by_cases he : (cs2.takeWhile Char.isDigit).isEmpty
          · simp [he]
          · rw [if_neg he]
            intro c hmem
            simp only [List.mem_cons] at hmem
            rcases hmem with hm | hm | hm
            · subst hm; rcases hc with h | h <;> subst h <;> decide
            · subst hm; rcases hd with h | h <;> subst h <;> decide
            · exact digit_inert c (List.mem_takeWhile_imp hm)
        · rw [if_neg hd]
          by_cases he : ((d :: cs2).takeWhile Char.isDigit).isEmpty
          · simp [he]
          · rw [if_neg he]
            intro c hmem
            simp only [List.mem_cons] at hmem
            rcases hmem with hm | hm
            · subst hm; rcases hc with h | h <;> subst h <;> decide
            · exact digit_inert c (List.mem_takeWhile_imp hm)
      · simp
    · rw [if_neg hc]
      simp
  · simp

theorem numFracExp_inert (s : List Char) : ∀ c ∈ (numFracExp s).1, inert c = true := by
  unfold numFracExp
  intro c hc
  simp only [List.mem_append] at hc
  rcases hc with hc | hc
  · exact fracPart_inert s c hc
  · exact expPart_inert _ c hc

theorem parseNumberCore_inert (s p r : List Char) (h : parseNumberCore s = some (p, r)) :
    ∀ c ∈ p, inert c = true := by
  match s with
  | [] => exact absurd h (by simp [parseNumberCore])
  | c0 :: cs =>
    simp only [parseNumberCore] at h
    by_cases h0 : c0 = '0'
    · rw [if_pos h0] at h
      simp only [Option.some.injEq, Prod.mk.injEq] at h
      obtain ⟨h1, _⟩ := h
      rw [← h1]
      intro c hc
      simp only [List.mem_cons] at hc
      rcases hc with hc | hc
      · subst hc; decide
      · exact numFracExp_inert cs c hc
    · rw [if_neg h0] at h
      by_cases hd : c0.isDigit
      · rw [if_pos hd] at h
        simp only [Option.some.injEq, Prod.mk.injEq] at h
        obtain ⟨h1, _⟩ := h
        rw [← h1]
        intro c hc
        simp only [List.mem_cons, List.mem_append] at hc
        rcases hc with hc | hc | hc
        · rw [hc]; exact digit_inert c0 hd
        · exact digit_inert c (List.mem_takeWhile_imp hc)
        · exact numFracExp_inert _ c hc
      · rw [if_neg hd] at h
        by_cases hI : c0 = 'I'
        · rw [if_pos hI] at h
          rw [Option.map_eq_some'] at h
          obtain ⟨⟨p1, r1⟩, hm, heq⟩ := h
          simp only [Prod.mk.injEq] at heq
          obtain ⟨h1, _⟩ := heq
          obtain ⟨hl, _⟩ := matchLit_eq _ _ _ _ hm
          subst hl
          rw [← h1]
          intro c hc
          rw [show ('I' :: "nfinity".toList) = ['I', 'n', 'f', 'i', 'n', 'i', 't', 'y'] from rfl] at hc
          simp only [List.mem_cons, List.not_mem_nil, or_false] at hc
          rcases hc with hc | hc | hc | hc | hc | hc | hc | hc <;> subst hc <;> decide
        · rw [if_neg hI] at h
          exact absurd h (by simp)

theorem parseNumber_inert (s p r : List Char) (h : parseNumber s = some (p, r)) :
    ∀ c ∈ p, inert c = true := by
  unfold parseNumber at h
  split at h
  · rename_i cs
    rw [Option.map_eq_some'] at h
    obtain ⟨⟨p1, r1⟩, hm, heq⟩ := h
    simp only [Prod.mk.injEq] at heq
    obtain ⟨h1, _⟩ := heq
    rw [← h1]
    intro c hc
    simp only [List.mem_cons] at hc
    rcases hc with hc | hc
    · subst hc; decide
    · exact parseNumberCore_inert cs p1 r1 hm c hc
  · exact parseNumberCore_inert _ _ _ h

/-- A run of inert characters leaves the scan state untouched. -/
theorem scanGo_inert (bo bc : Char) (hbo : bo = '[' ∨ bo = '{') (hbc : bc = ']' ∨ bc = '}') :
    ∀ (l : List Char), (∀ c ∈ l, inert c = true) →
      ∀ (cnt : Int) (iS : Bool) (n : Nat),
        scanGo bo bc l cnt iS false n = ScanRes.more cnt iS false := by
  intro l
  induction l with
  | nil => intro _ cnt iS n; rfl
  | cons c cs ih =>
    intro h cnt iS n
    obtain ⟨h1, h2, h3, h4, h5, h6⟩ := inert_elim c (h c (List.mem_cons_self c cs))
    have hcs : ∀ x ∈ cs, inert x = true := fun x hx => h x (List.mem_cons_of_mem c hx)
    have hbo' : ¬c = bo := by rcases hbo with hb | hb <;> rw [hb] <;> assumption
    have hbc' : ¬c = bc := by rcases hbc with hb | hb <;> rw [hb] <;> assumption
    simp only [scanGo]
    rw [if_neg (by simp), if_neg h2, if_neg h1]
    cases iS
    · rw [if_neg (by simp), if_neg hbo', if_neg hbc']
      exact ih hcs cnt false (n + 1)
    · rw [if_pos rfl]
      exact ih hcs cnt true (n + 1)

/-- Composition of the scan across list concatenation. -/
theorem scanGo_append (bo bc : Char) :
    ∀ (xs ys : List Char) (cnt : Int) (iS esc : Bool) (n : Nat),
      scanGo bo bc (xs ++ ys) cnt iS esc n
        = match scanGo bo bc xs cnt iS esc n with
          | ScanRes.found j => ScanRes.found j
          | ScanRes.more c2 i2 e2 => scanGo bo bc ys c2 i2 e2 (n + xs.length) := by
  intro xs
  induction xs with
  | nil =>
    intro ys cnt iS esc n
    simp [scanGo]
  | cons c cs ih =>
    intro ys cnt iS esc n
    simp only [List.cons_append, scanGo, List.length_cons, List.append_eq]
    have harith : n + (cs.length + 1) = n + 1 + cs.length := by omega
    rw [harith]
    by_cases b1 : esc = true
    · rw [if_pos b1, if_pos b1]
      exact ih ys cnt iS false (n + 1)
    · rw [if_neg b1, if_neg b1]
      by_cases b2 : c = '\\'
      · rw [if_pos b2, if_pos b2]
        exact ih ys cnt iS true (n + 1)
      · rw [if_neg b2, if_neg b2]
        by_cases b3 : c = '"'
        · rw [if_pos b3, if_pos b3]
          exact ih ys cnt (!iS) false (n + 1)
        · rw [if_neg b3, if_neg b3]
          by_cases b4 : iS = true
          · rw [if_pos b4, if_pos b4]
            exact ih ys cnt iS false (n + 1)
          · rw [if_neg b4, if_neg b4]
            by_cases b5 : c = bo
            · rw [if_pos b5, if_pos b5]
              exact ih ys (cnt + 1) iS false (n + 1)
            · rw [if_neg b5, if_neg b5]
              by_cases b6 : c = bc
              · rw [if_pos b6, if_pos b6]
                by_cases b7 : cnt - 1 = 0
                · rw [if_pos b7, if_pos b7]
                · rw [if_neg b7, if_neg b7]
                  exact ih ys (cnt - 1) iS false (n + 1)
              · rw [if_neg b6, if_neg b6]
                exact ih ys cnt iS false (n + 1)

end Extractor

/-! ### Single-step scan reductions and the parse/scan specification -/

namespace Extractor

theorem scanGo_append_more (bo bc : Char) (xs ys : List Char) (cnt c2 : Int)
    (iS esc i2 e2 : Bool) (n : Nat)
    (hxs : scanGo bo bc xs cnt iS esc n = ScanRes.more c2 i2 e2) :
    scanGo bo bc (xs ++ ys) cnt iS esc n = scanGo bo bc ys c2 i2 e2 (n + xs.length) := by
  rw [scanGo_append, hxs]

theorem scanGo_append_found (bo bc : Char) (xs ys : List Char) (cnt : Int)
    (iS esc : Bool) (n j : Nat)
    (hxs : scanGo bo bc xs cnt iS esc n = ScanRes.found j) :
    scanGo bo bc (xs ++ ys) cnt iS esc n = ScanRes.found j := by
  rw [scanGo_append, hxs]

theorem scanGo_quote (bo bc : Char) (l : List Char) (cnt : Int) (iS : Bool) (n : Nat) :
    scanGo bo bc ('"' :: l) cnt iS false n = scanGo bo bc l cnt (!iS) false (n + 1) := by
  simp [scanGo]

theorem scanGo_esc (bo bc c : Char) (l : List Char) (cnt : Int) (iS : Bool) (n : Nat) :
    scanGo bo bc (c :: l) cnt iS true n = scanGo bo bc l cnt iS false (n + 1) := by
  simp [scanGo]

theorem scanGo_bslash (bo bc : Char) (l : List Char) (cnt : Int) (iS : Bool) (n : Nat) :
    scanGo bo bc ('\\' :: l) cnt iS false n = scanGo bo bc l cnt iS true (n + 1) := by
  simp [scanGo]

theorem scanGo_inStr (bo bc c : Char) (l : List Char) (cnt : Int) (n : Nat)
    (h1 : ¬c = '"') (h2 : ¬c = '\\') :
    scanGo bo bc (c :: l) cnt true false n = scanGo bo bc l cnt true false (n + 1) := by
  simp [scanGo, h1, h2]

theorem scanGo_open (bo bc : Char) (l : List Char) (cnt : Int) (n : Nat)
    (hbo : bo = '[' ∨ bo = '{') :
    scanGo bo bc (bo :: l) cnt false false n
      = scanGo bo bc l (cnt + 1) false false (n + 1) := by
  have h1 : ¬bo = '"' := by rcases hbo with h | h <;> subst h <;> decide
  have h2 : ¬bo = '\\' := by rcases hbo with h | h <;> subst h <;> decide
  simp [scanGo, h1, h2]

theorem scanGo_close (bo bc : Char) (l : List Char) (cnt : Int) (n : Nat)
    (hbo : bo = '[' ∨ bo = '{') (hbc : bc = ']' ∨ bc = '}') :
    scanGo bo bc (bc :: l) cnt false false n
      = if cnt - 1 = 0 then ScanRes.found n
        else scanGo bo bc l (cnt - 1) false false (n + 1) := by
  have h1 : ¬bc = '"' := by rcases hbc with h | h <;> subst h <;> decide
  have h2 : ¬bc = '\\' := by rcases hbc with h | h <;> subst h <;> decide
  have h3 : ¬bc = bo := by
    rcases hbo with h | h <;> rcases hbc with h' | h' <;> subst h <;> subst h' <;> decide
  simp [scanGo, h1, h2, h3]

theorem scanGo_other (bo bc c : Char) (l : List Char) (cnt : Int) (n : Nat)
    (h1 : ¬c = '"') (h2 : ¬c = '\\') (h3 : ¬c = bo) (h4 : ¬c = bc) :
    scanGo bo bc (c :: l) cnt false false n = scanGo bo bc l cnt false false (n + 1) := by
  simp [scanGo, h1, h2, h3, h4]

/-- Count change contributed by a closing `]` when scanning with opener
`bo` (`1` for the array scan, `0` for the object scan). -/
def arrD (bo : Char) : Int := if bo = '[' then 1 else 0

/-- Count change contributed by a closing `}` when scanning with opener
`bo`. -/
def objD (bo : Char) : Int := if bo = '{' then 1 else 0

/-- How the bracket scan traverses the span consumed by each parse mode:
a whole value, scanned outside a string with positive count, leaves the
state unchanged; a string body returns the state to out-of-string; an
array (object) remainder closes one bracket level when the scan's own
pair is `[]` (`{}`), and, scanned at count 1 with the matching pair, ends
the scan exactly at its closing bracket. -/
def ScanSpec (bo bc : Char) : PMode → List Char → Prop
  | PMode.value, p => ∀ (cnt : Int) (n : Nat), 1 ≤ cnt →
      scanGo bo bc p cnt false false n = ScanRes.more cnt false false
  | PMode.strRest, p => ∀ (cnt : Int) (n : Nat),
      scanGo bo bc p cnt true false n = ScanRes.more cnt false false
  | PMode.arrayRest, p =>
      (∀ (cnt : Int) (n : Nat), 1 + arrD bo ≤ cnt →
        scanGo bo bc p cnt false false n = ScanRes.more (cnt - arrD bo) false false)
      ∧ (bo = '[' → ∃ m, p.length = m + 1 ∧
          ∀ (ys : List Char) (n : Nat),
            scanGo bo bc (p ++ ys) 1 false false n = ScanRes.found (n + m))
  | PMode.arrayTail, p =>
      (∀ (cnt : Int) (n : Nat), 1 + arrD bo ≤ cnt →
        scanGo bo bc p cnt false false n = ScanRes.more (cnt - arrD bo) false false)
      ∧ (bo = '[' → ∃ m, p.length = m + 1 ∧
          ∀ (ys : List Char) (n : Nat),
            scanGo bo bc (p ++ ys) 1 false false n = ScanRes.found (n + m))
  | PMode.objRest, p =>
      (∀ (cnt : Int) (n : Nat), 1 + objD bo ≤ cnt →
        scanGo bo bc p cnt false false n = ScanRes.more (cnt - objD bo) false false)
      ∧ (bo = '{' → ∃ m, p.length = m + 1 ∧
          ∀ (ys : List Char) (n : Nat),
            scanGo bo bc (p ++ ys) 1 false false n = ScanRes.found (n + m))
  | PMode.objAfterKey, p =>
      (∀ (cnt : Int) (n : Nat), 1 + objD bo ≤ cnt →
        scanGo bo bc p cnt false false n = ScanRes.more (cnt - objD bo) false false)
      ∧ (bo = '{' → ∃ m, p.length = m + 1 ∧
          ∀ (ys : List Char) (n : Nat),
            scanGo bo bc (p ++ ys) 1 false false n = ScanRes.found (n + m))
  | PMode.objTail, p =>
      (∀ (cnt : Int) (n : Nat), 1 + objD bo ≤ cnt →
        scanGo bo bc p cnt false false n = ScanRes.more (cnt - objD bo) false false)
      ∧ (bo = '{' → ∃ m, p.length = m + 1 ∧
          ∀ (ys : List Char) (n : Nat),
            scanGo bo bc (p ++ ys) 1 false false n = ScanRes.found (n + m))

end Extractor

namespace Extractor

theorem arrD_lbrack : arrD '[' = 1 := by simp [arrD]

theorem arrD_lbrace : arrD '{' = 0 := by simp [arrD]

theorem objD_lbrack : objD '[' = 0 := by simp [objD]

theorem objD_lbrace : objD '{' = 1 := by simp [objD]

theorem inert_run_append (w w2 : List Char) (c : Char)
    (hw : ∀ x ∈ w, inert x = true) (hw2 : ∀ x ∈ w2, inert x = true)
    (hc : inert c = true) : ∀ x ∈ w ++ c :: w2, inert x = true := by
  intro x hx
  simp only [List.mem_append, List.mem_cons] at hx
  rcases hx with hx | hx | hx
  · exact hw x hx
  · rw [hx]; exact hc
  · exact hw2 x hx

theorem parse_scan :
    ∀ (fuel : Nat) (m : PMode) (s p r : List Char),
      parseRun fuel m s = some (p, r) →
      ScanSpec '[' ']' m p ∧ ScanSpec '{' '}' m p := by
  intro fuel
  induction fuel with
  | zero => intro m s p r h; exact absurd h (by simp [parseRun])
  | succ fuel ih =>
    intro m s p r h
    cases m with
    | value =>
      simp only [parseRun] at h
      split at h
      · simp at h
      · rename_i c cs
        split_ifs at h with hq hbo hbr ht hf hn hN
        · rw [Option.map_eq_some'] at h
          obtain ⟨⟨p1, r1⟩, hm, heq⟩ := h
          simp only [Prod.mk.injEq] at heq
          obtain ⟨h1, h2⟩ := heq
          subst h1
          obtain ⟨S1, S2⟩ := ih PMode.strRest cs p1 r1 hm
          subst hq
          constructor
          · intro cnt n hcnt
            rw [scanGo_quote]
            simpa using S1 cnt (n + 1)
          · intro cnt n hcnt
            rw [scanGo_quote]
            simpa using S2 cnt (n + 1)
        · rw [Option.map_eq_some'] at h
          obtain ⟨⟨p1, r1⟩, hm, heq⟩ := h
          simp only [Prod.mk.injEq] at heq
          obtain ⟨h1, h2⟩ := heq
          subst h1
          obtain ⟨S1, S2⟩ := ih PMode.arrayRest cs p1 r1 hm
          subst hbo
          constructor
          · intro cnt n hcnt
            rw [scanGo_open '[' ']' p1 cnt n (Or.inl rfl)]
            have e : cnt + 1 - arrD '[' = cnt := by rw [arrD_lbrack]; omega
            rw [S1.1 (cnt + 1) (n + 1) (by rw [arrD_lbrack]; omega), e]
          · intro cnt n hcnt
            rw [scanGo_other '{' '}' '[' p1 cnt n (by decide) (by decide) (by decide) (by decide)]
            have e : cnt - arrD '{' = cnt := by rw [arrD_lbrace]; omega
            rw [S2.1 cnt (n + 1) (by rw [arrD_lbrace]; omega), e]
        · rw [Option.map_eq_some'] at h
          obtain ⟨⟨p1, r1⟩, hm, heq⟩ := h
          simp only [Prod.mk.injEq] at heq
          obtain ⟨h1, h2⟩ := heq
          subst h1
          obtain ⟨S1, S2⟩ := ih PMode.objRest cs p1 r1 hm
          subst hbr
          constructor
          · intro cnt n hcnt
            rw [scanGo_other '[' ']' '{' p1 cnt n (by decide) (by decide) (by decide) (by decide)]
            have e : cnt - objD '[' = cnt := by rw [objD_lbrack]; omega
            rw [S1.1 cnt (n + 1) (by rw [objD_lbrack]; omega), e]
          · intro cnt n hcnt
            rw [scanGo_open '{' '}' p1 cnt n (Or.inr rfl)]
            have e : cnt + 1 - objD '{' = cnt := by rw [objD_lbrace]; omega
            rw [S2.1 (cnt + 1) (n + 1) (by rw [objD_lbrace]; omega), e]
        · rw [Option.map_eq_some'] at h
          obtain ⟨⟨p1, r1⟩, hm, heq⟩ := h
          simp only [Prod.mk.injEq] at heq
          obtain ⟨h1, h2⟩ := heq
          subst h1
          obtain ⟨hl, ha⟩ := matchLit_eq _ _ _ _ hm
          subst hl
          subst ht
          have hin : ∀ x ∈ ('t' :: "rue".toList), inert x = true := by decide
          constructor
          · intro cnt n hcnt
            exact scanGo_inert '[' ']' (Or.inl rfl) (Or.inl rfl) _ hin cnt false n
          · intro cnt n hcnt
            exact scanGo_inert '{' '}' (Or.inr rfl) (Or.inr rfl) _ hin cnt false n
        · rw [Option.map_eq_some'] at h
          obtain ⟨⟨p1, r1⟩, hm, heq⟩ := h
          simp only [Prod.mk.injEq] at heq
          obtain ⟨h1, h2⟩ := heq
          subst h1
          obtain ⟨hl, ha⟩ := matchLit_eq _ _ _ _ hm
          subst hl
          subst hf
          have hin : ∀ x ∈ ('f' :: "alse".toList), inert x = true := by decide
          constructor
          · intro cnt n hcnt
            exact scanGo_inert '[' ']' (Or.inl rfl) (Or.inl rfl) _ hin cnt false n
          · intro cnt n hcnt
            exact scanGo_inert '{' '}' (Or.inr rfl) (Or.inr rfl) _ hin cnt false n
        · rw [Option.map_eq_some'] at h
          obtain ⟨⟨p1, r1⟩, hm, heq⟩ := h
          simp only [Prod.mk.injEq] at heq
          obtain ⟨h1, h2⟩ := heq
          subst h1
          obtain ⟨hl, ha⟩ := matchLit_eq _ _ _ _ hm
          subst hl
          subst hn
          have hin : ∀ x ∈ ('n' :: "ull".toList), inert x = true := by decide
          constructor
          · intro cnt n hcnt
            exact scanGo_inert '[' ']' (Or.inl rfl) (Or.inl rfl) _ hin cnt false n
          · intro cnt n hcnt
            exact scanGo_inert '{' '}' (Or.inr rfl) (Or.inr rfl) _ hin cnt false n
        · rw [Option.map_eq_some'] at h
          obtain ⟨⟨p1, r1⟩, hm, heq⟩ := h
          simp only [Prod.mk.injEq] at heq
          obtain ⟨h1, h2⟩ := heq
          subst h1
          obtain ⟨hl, ha⟩ := matchLit_eq _ _ _ _ hm
          subst hl
          subst hN
          have hin : ∀ x ∈ ('N' :: "aN".toList), inert x = true := by decide
          constructor
          · intro cnt n hcnt
            exact scanGo_inert '[' ']' (Or.inl rfl) (Or.inl rfl) _ hin cnt false n
          · intro cnt n hcnt
            exact scanGo_inert '{' '}' (Or.inr rfl) (Or.inr rfl) _ hin cnt false n
        · have hin := parseNumber_inert _ _ _ h
          constructor
          · intro cnt n hcnt
            exact scanGo_inert '[' ']' (Or.inl rfl) (Or.inl rfl) p hin cnt false n
          · intro cnt n hcnt
            exact scanGo_inert '{' '}' (Or.inr rfl) (Or.inr rfl) p hin cnt false n
    | strRest =>
      simp only [parseRun] at h
      split at h
      · simp at h
      · rename_i c cs
        by_cases hq : c = '"'
        · rw [if_pos hq] at h
          simp only [Option.some.injEq, Prod.mk.injEq] at h
          obtain ⟨h1, h2⟩ := h
          subst h1
          subst hq
          constructor
          · intro cnt n
            rw [scanGo_quote]
            rfl
          · intro cnt n
            rw [scanGo_quote]
            rfl
        · rw [if_neg hq] at h
          by_cases hbs : c = '\\'
          · rw [if_pos hbs] at h
            split at h
            · simp at h
            · rename_i e cs2
              by_cases hu : e = 'u'
              · rw [if_pos hu] at h
                split at h
                · rename_i a1 a2 a3 a4 cs3
                  split_ifs at h with hhex
                  · simp only [Bool.and_eq_true] at hhex
                    obtain ⟨⟨⟨hh1, hh2⟩, hh3⟩, hh4⟩ := hhex
                    have hx1 := hexDigit_ne a1 hh1
                    have hx2 := hexDigit_ne a2 hh2
                    have hx3 := hexDigit_ne a3 hh3
                    have hx4 := hexDigit_ne a4 hh4
                    rw [Option.map_eq_some'] at h
                    obtain ⟨⟨p1, r1⟩, hm, heq⟩ := h
                    simp only [Prod.mk.injEq] at heq
                    obtain ⟨h1, h2⟩ := heq
                    subst h1
                    obtain ⟨S1, S2⟩ := ih PMode.strRest cs3 p1 r1 hm
                    subst hbs
                    subst hu
                    constructor
                    · intro cnt n
                      rw [scanGo_bslash, scanGo_esc]
                      rw [scanGo_inStr _ _ _ _ _ _ hx1.1 hx1.2]
                      rw [scanGo_inStr _ _ _ _ _ _ hx2.1 hx2.2]
                      rw [scanGo_inStr _ _ _ _ _ _ hx3.1 hx3.2]
                      rw [scanGo_inStr _ _ _ _ _ _ hx4.1 hx4.2]
                      exact S1 cnt _
                    · intro cnt n
                      rw [scanGo_bslash, scanGo_esc]
                      rw [scanGo_inStr _ _ _ _ _ _ hx1.1 hx1.2]
                      rw [scanGo_inStr _ _ _ _ _ _ hx2.1 hx2.2]
                      rw [scanGo_inStr _ _ _ _ _ _ hx3.1 hx3.2]
                      rw [scanGo_inStr _ _ _ _ _ _ hx4.1 hx4.2]
                      exact S2 cnt _
                · simp at h
              · rw [if_neg hu] at h
                split_ifs at h with hesc
                · rw [Option.map_eq_some'] at h
                  obtain ⟨⟨p1, r1⟩, hm, heq⟩ := h
                  simp only [Prod.mk.injEq] at heq
                  obtain ⟨h1, h2⟩ := heq
                  subst h1
                  obtain ⟨S1, S2⟩ := ih PMode.strRest cs2 p1 r1 hm
                  subst hbs
                  constructor
                  · intro cnt n
                    rw [scanGo_bslash, scanGo_esc]
                    exact S1 cnt _
                  · intro cnt n
                    rw [scanGo_bslash, scanGo_esc]
                    exact S2 cnt _
          · rw [if_neg hbs] at h
            by_cases hctl : c.toNat < 32
            · rw [if_pos hctl] at h
              simp at h
            · rw [if_neg hctl] at h
              rw [Option.map_eq_some'] at h
              obtain ⟨⟨p1, r1⟩, hm, heq⟩ := h
              simp only [Prod.mk.injEq] at heq
              obtain ⟨h1, h2⟩ := heq
              subst h1
              obtain ⟨S1, S2⟩ := ih PMode.strRest cs p1 r1 hm
              constructor
              · intro cnt n
                rw [scanGo_inStr _ _ _ _ _ _ hq hbs]
                exact S1 cnt _
              · intro cnt n
                rw [scanGo_inStr _ _ _ _ _ _ hq hbs]
                exact S2 cnt _
    | arrayRest =>
      simp only [parseRun] at h
      split at h
      · rename_i r2 heq
        simp only [Option.some.injEq, Prod.mk.injEq] at h
        obtain ⟨h1, h2⟩ := h
        subst h1
        have hw := skipWs_fst_inert s
        constructor
        · refine ⟨?_, ?_⟩
          · intro cnt n hcnt
            have hc2 : 2 ≤ cnt := by rw [arrD_lbrack] at hcnt; omega
            have e1 := scanGo_append_more '[' ']' (skipWs s).1 [']'] cnt cnt false false false false n
              (scanGo_inert '[' ']' (Or.inl rfl) (Or.inl rfl) _ hw cnt false n)
            rw [e1]
            rw [scanGo_close '[' ']' [] cnt (n + (skipWs s).1.length) (Or.inl rfl) (Or.inl rfl)]
            rw [if_neg (by omega), arrD_lbrack]
            rfl
          · intro hb
            refine ⟨(skipWs s).1.length, by simp, ?_⟩
            intro ys n
            rw [List.append_assoc, List.singleton_append]
            have e1 := scanGo_append_more '[' ']' (skipWs s).1 (']' :: ys) 1 1 false false false false n
              (scanGo_inert '[' ']' (Or.inl rfl) (Or.inl rfl) _ hw 1 false n)
            rw [e1]
            rw [scanGo_close '[' ']' ys 1 (n + (skipWs s).1.length) (Or.inl rfl) (Or.inl rfl)]
            rw [if_pos (by omega)]
        · refine ⟨?_, ?_⟩
          · intro cnt n hcnt
            have e1 := scanGo_append_more '{' '}' (skipWs s).1 [']'] cnt cnt false false false false n
              (scanGo_inert '{' '}' (Or.inr rfl) (Or.inr rfl) _ hw cnt false n)
            rw [e1]
            rw [scanGo_other '{' '}' ']' [] cnt (n + (skipWs s).1.length) (by decide) (by decide) (by decide) (by decide)]
            rw [arrD_lbrace]
            simp [scanGo]
          · intro hb
            exact absurd hb (by decide)
      · rename_i hne
        split at h
        · simp at h
        · rename_i v r2 hv
          split at h
          · simp at h
          · rename_i tl r3 htl
            simp only [Option.some.injEq, Prod.mk.injEq] at h
            obtain ⟨h1, h2⟩ := h
            subst h1
            have hw := skipWs_fst_inert s
            obtain ⟨V1, V2⟩ := ih PMode.value _ _ _ hv
            obtain ⟨T1, T2⟩ := ih PMode.arrayTail _ _ _ htl
            constructor
            · refine ⟨?_, ?_⟩
              · intro cnt n hcnt
                have hc1 : 1 ≤ cnt := by rw [arrD_lbrack] at hcnt; omega
                have e1 := scanGo_append_more '[' ']' (skipWs s).1 (v ++ tl) cnt cnt false false false false n
                  (scanGo_inert '[' ']' (Or.inl rfl) (Or.inl rfl) _ hw cnt false n)
                rw [e1]
                have e2 := scanGo_append_more '[' ']' v tl cnt cnt false false false false
                  (n + (skipWs s).1.length) (V1 cnt (n + (skipWs s).1.length) hc1)
                rw [e2]
                exact T1.1 cnt _ hcnt
              · intro hb
                obtain ⟨mt, hmt, F⟩ := T1.2 rfl
                refine ⟨(skipWs s).1.length + v.length + mt, ?_, ?_⟩
                · simp only [List.length_append]
                  omega
                · intro ys n
                  rw [List.append_assoc, List.append_assoc]
                  have e1 := scanGo_append_more '[' ']' (skipWs s).1 (v ++ (tl ++ ys)) 1 1 false false false false n
                    (scanGo_inert '[' ']' (Or.inl rfl) (Or.inl rfl) _ hw 1 false n)
                  rw [e1]
                  have e2 := scanGo_append_more '[' ']' v (tl ++ ys) 1 1 false false false false
                    (n + (skipWs s).1.length) (V1 1 (n + (skipWs s).1.length) (by omega))
                  rw [e2]
                  rw [F ys (n + (skipWs s).1.length + v.length)]
                  congr 1
                  omega
            · refine ⟨?_, ?_⟩
              · intro cnt n hcnt
                have hc1 : 1 ≤ cnt := by rw [arrD_lbrace] at hcnt; omega
                have e1 := scanGo_append_more '{' '}' (skipWs s).1 (v ++ tl) cnt cnt false false false false n
                  (scanGo_inert '{' '}' (Or.inr rfl) (Or.inr rfl) _ hw cnt false n)
                rw [e1]
                have e2 := scanGo_append_more '{' '}' v tl cnt cnt false false false false
                  (n + (skipWs s).1.length) (V2 cnt (n + (skipWs s).1.length) hc1)
                rw [e2]
                exact T2.1 cnt _ hcnt
              · intro hb
                exact absurd hb (by decide)
    | arrayTail =>
      simp only [parseRun] at h
      split at h
      · rename_i r2 heq
        simp only [Option.some.injEq, Prod.mk.injEq] at h
        obtain ⟨h1, h2⟩ := h
        subst h1
        have hw := skipWs_fst_inert s
        constructor
        · refine ⟨?_, ?_⟩
          · intro cnt n hcnt
            have hc2 : 2 ≤ cnt := by rw [arrD_lbrack] at hcnt; omega
            have e1 := scanGo_append_more '[' ']' (skipWs s).1 [']'] cnt cnt false false false false n
              (scanGo_inert '[' ']' (Or.inl rfl) (Or.inl rfl) _ hw cnt false n)
            rw [e1]
            rw [scanGo_close '[' ']' [] cnt (n + (skipWs s).1.length) (Or.inl rfl) (Or.inl rfl)]
            rw [if_neg (by omega), arrD_lbrack]
            rfl
          · intro hb
            refine ⟨(skipWs s).1.length, by simp, ?_⟩
            intro ys n
            rw [List.append_assoc, List.singleton_append]
            have e1 := scanGo_append_more '[' ']' (skipWs s).1 (']' :: ys) 1 1 false false false false n
              (scanGo_inert '[' ']' (Or.inl rfl) (Or.inl rfl) _ hw 1 false n)
            rw [e1]
            rw [scanGo_close '[' ']' ys 1 (n + (skipWs s).1.length) (Or.inl rfl) (Or.inl rfl)]
            rw [if_pos (by omega)]
        · refine ⟨?_, ?_⟩
          · intro cnt n hcnt
            have e1 := scanGo_append_more '{' '}' (skipWs s).1 [']'] cnt cnt false false false false n
              (scanGo_inert '{' '}' (Or.inr rfl) (Or.inr rfl) _ hw cnt false n)
            rw [e1]
            rw [scanGo_other '{' '}' ']' [] cnt (n + (skipWs s).1.length) (by decide) (by decide) (by decide) (by decide)]
            rw [arrD_lbrace]
            simp [scanGo]
          · intro hb
            exact absurd hb (by decide)
      · rename_i r2 heq
        split at h
        · simp at h
        · rename_i v r3 hv
          split at h
          · simp at h
          · rename_i tl r4 htl
            simp only [Option.some.injEq, Prod.mk.injEq] at h
            obtain ⟨h1, h2⟩ := h
            subst h1
            have hw := skipWs_fst_inert s
            have hw2 := skipWs_fst_inert r2
            have hrun := inert_run_append (skipWs s).1 (skipWs r2).1 ',' hw hw2 (by decide)
            obtain ⟨V1, V2⟩ := ih PMode.value _ _ _ hv
            obtain ⟨T1, T2⟩ := ih PMode.arrayTail _ _ _ htl
            constructor
            · refine ⟨?_, ?_⟩
              · intro cnt n hcnt
                have hc1 : 1 ≤ cnt := by rw [arrD_lbrack] at hcnt; omega
                have hsh : (skipWs s).1 ++ ',' :: ((skipWs r2).1 ++ (v ++ tl))
                    = ((skipWs s).1 ++ ',' :: (skipWs r2).1) ++ (v ++ tl) := by simp
                rw [hsh]
                have e1 := scanGo_append_more '[' ']' ((skipWs s).1 ++ ',' :: (skipWs r2).1) (v ++ tl) cnt cnt false false false false n
                  (scanGo_inert '[' ']' (Or.inl rfl) (Or.inl rfl) _ hrun cnt false n)
                rw [e1]
                have e2 := scanGo_append_more '[' ']' v tl cnt cnt false false false false
                  (n + ((skipWs s).1 ++ ',' :: (skipWs r2).1).length)
                  (V1 cnt (n + ((skipWs s).1 ++ ',' :: (skipWs r2).1).length) hc1)
                rw [e2]
                exact T1.1 cnt _ hcnt
              · intro hb
                obtain ⟨mt, hmt, F⟩ := T1.2 rfl
                refine ⟨((skipWs s).1 ++ ',' :: (skipWs r2).1).length + v.length + mt, ?_, ?_⟩
                · simp only [List.length_append, List.length_cons]
                  omega
                · intro ys n
                  have hsh : ((skipWs s).1 ++ ',' :: ((skipWs r2).1 ++ (v ++ tl))) ++ ys
                      = ((skipWs s).1 ++ ',' :: (skipWs r2).1) ++ (v ++ (tl ++ ys)) := by simp
                  rw [hsh]
                  have e1 := scanGo_append_more '[' ']' ((skipWs s).1 ++ ',' :: (skipWs r2).1) (v ++ (tl ++ ys)) 1 1 false false false false n
                    (scanGo_inert '[' ']' (Or.inl rfl) (Or.inl rfl) _ hrun 1 false n)
                  rw [e1]
                  have e2 := scanGo_append_more '[' ']' v (tl ++ ys) 1 1 false false false false
                    (n + ((skipWs s).1 ++ ',' :: (skipWs r2).1).length)
                    (V1 1 (n + ((skipWs s).1 ++ ',' :: (skipWs r2).1).length) (by omega))
                  rw [e2]
                  rw [F ys (n + ((skipWs s).1 ++ ',' :: (skipWs r2).1).length + v.length)]
                  congr 1
                  omega
            · refine ⟨?_, ?_⟩
              · intro cnt n hcnt
                have hc1 : 1 ≤ cnt := by rw [arrD_lbrace] at hcnt; omega
                have hsh : (skipWs s).1 ++ ',' :: ((skipWs r2).1 ++ (v ++ tl))
                    = ((skipWs s).1 ++ ',' :: (skipWs r2).1) ++ (v ++ tl) := by simp
                rw [hsh]
                have e1 := scanGo_append_more '{' '}' ((skipWs s).1 ++ ',' :: (skipWs r2).1) (v ++ tl) cnt cnt false false false false n
                  (scanGo_inert '{' '}' (Or.inr rfl) (Or.inr rfl) _ hrun cnt false n)
                rw [e1]
                have e2 := scanGo_append_more '{' '}' v tl cnt cnt false false false false
                  (n + ((skipWs s).1 ++ ',' :: (skipWs r2).1).length)
                  (V2 cnt (n + ((skipWs s).1 ++ ',' :: (skipWs r2).1).length) hc1)
                rw [e2]
                exact T2.1 cnt _ hcnt
              · intro hb
                exact absurd hb (by decide)
      · simp at h
    | objRest =>
      simp only [parseRun] at h
      split at h
      · rename_i r2 heq
        simp only [Option.some.injEq, Prod.mk.injEq] at h
        obtain ⟨h1, h2⟩ := h
        subst h1
        have hw := skipWs_fst_inert s
        constructor
        · refine ⟨?_, ?_⟩
          · intro cnt n hcnt
            have e1 := scanGo_append_more '[' ']' (skipWs s).1 ['}'] cnt cnt false false false false n
              (scanGo_inert '[' ']' (Or.inl rfl) (Or.inl rfl) _ hw cnt false n)
            rw [e1]
            rw [scanGo_other '[' ']' '}' [] cnt (n + (skipWs s).1.length) (by decide) (by decide) (by decide) (by decide)]
            rw [objD_lbrack]
            simp [scanGo]
          · intro hb
            exact absurd hb (by decide)
        · refine ⟨?_, ?_⟩
          · intro cnt n hcnt
            have hc2 : 2 ≤ cnt := by rw [objD_lbrace] at hcnt; omega
            have e1 := scanGo_append_more '{' '}' (skipWs s).1 ['}'] cnt cnt false false false false n
              (scanGo_inert '{' '}' (Or.inr rfl) (Or.inr rfl) _ hw cnt false n)
            rw [e1]
            rw [scanGo_close '{' '}' [] cnt (n + (skipWs s).1.length) (Or.inr rfl) (Or.inr rfl)]
            rw [if_neg (by omega), objD_lbrace]
            rfl
          · intro hb
            refine ⟨(skipWs s).1.length, by simp, ?_⟩
            intro ys n
            rw [List.append_assoc, List.singleton_append]
            have e1 := scanGo_append_more '{' '}' (skipWs s).1 ('}' :: ys) 1 1 false false false false n
              (scanGo_inert '{' '}' (Or.inr rfl) (Or.inr rfl) _ hw 1 false n)
            rw [e1]
            rw [scanGo_close '{' '}' ys 1 (n + (skipWs s).1.length) (Or.inr rfl) (Or.inr rfl)]
            rw [if_pos (by omega)]
      · rename_i r2 heq
        split at h
        · simp at h
        · rename_i k r3 hk
          split at h
          · simp at h
          · rename_i q r4 hq2
            simp only [Option.some.injEq, Prod.mk.injEq] at h
            obtain ⟨h1, h2⟩ := h
            subst h1
            have hw := skipWs_fst_inert s
            obtain ⟨K1, K2⟩ := ih PMode.strRest _ _ _ hk
            obtain ⟨Q1, Q2⟩ := ih PMode.objAfterKey _ _ _ hq2
            constructor
            · refine ⟨?_, ?_⟩
              · intro cnt n hcnt
                have e1 := scanGo_append_more '[' ']' (skipWs s).1 ('"' :: (k ++ q)) cnt cnt false false false false n
                  (scanGo_inert '[' ']' (Or.inl rfl) (Or.inl rfl) _ hw cnt false n)
                rw [e1, scanGo_quote]
                simp only [Bool.not_false]
                have e2 := scanGo_append_more '[' ']' k q cnt cnt true false false false
                  (n + (skipWs s).1.length + 1) (K1 cnt (n + (skipWs s).1.length + 1))
                rw [e2]
                exact Q1.1 cnt _ hcnt
              · intro hb
                exact absurd hb (by decide)
            · refine ⟨?_, ?_⟩
              · intro cnt n hcnt
                have e1 := scanGo_append_more '{' '}' (skipWs s).1 ('"' :: (k ++ q)) cnt cnt false false false false n
                  (scanGo_inert '{' '}' (Or.inr rfl) (Or.inr rfl) _ hw cnt false n)
                rw [e1, scanGo_quote]
                simp only [Bool.not_false]
                have e2 := scanGo_append_more '{' '}' k q cnt cnt true false false false
                  (n + (skipWs s).1.length + 1) (K2 cnt (n + (skipWs s).1.length + 1))
                rw [e2]
                exact Q2.1 cnt _ hcnt
              · intro hb
                obtain ⟨mq, hmq, F⟩ := Q2.2 rfl
                refine ⟨(skipWs s).1.length + 1 + k.length + mq, ?_, ?_⟩
                · simp only [List.length_append, List.length_cons]
                  omega
                · intro ys n
                  have hsh : ((skipWs s).1 ++ '"' :: (k ++ q)) ++ ys
                      = (skipWs s).1 ++ '"' :: (k ++ (q ++ ys)) := by simp
                  rw [hsh]
                  have e1 := scanGo_append_more '{' '}' (skipWs s).1 ('"' :: (k ++ (q ++ ys))) 1 1 false false false false n
                    (scanGo_inert '{' '}' (Or.inr rfl) (Or.inr rfl) _ hw 1 false n)
                  rw [e1, scanGo_quote]
                  simp only [Bool.not_false]
                  have e2 := scanGo_append_more '{' '}' k (q ++ ys) 1 1 true false false false
                    (n + (skipWs s).1.length + 1) (K2 1 (n + (skipWs s).1.length + 1))
                  rw [e2]
                  rw [F ys (n + (skipWs s).1.length + 1 + k.length)]
                  congr 1
                  omega
      · simp at h
    | objAfterKey =>
      simp only [parseRun] at h
      split at h
      · rename_i r2 heq
        split at h
        · simp at h
        · rename_i v r3 hv
          split at h
          · simp at h
          · rename_i tl r4 htl
            simp only [Option.some.injEq, Prod.mk.injEq] at h
            obtain ⟨h1, h2⟩ := h
            subst h1
            have hw := skipWs_fst_inert s
            have hw2 := skipWs_fst_inert r2
            have hrun := inert_run_append (skipWs s).1 (skipWs r2).1 ':' hw hw2 (by decide)
            obtain ⟨V1, V2⟩ := ih PMode.value _ _ _ hv
            obtain ⟨T1, T2⟩ := ih PMode.objTail _ _ _ htl
            constructor
            · refine ⟨?_, ?_⟩
              · intro cnt n hcnt
                have hc1 : 1 ≤ cnt := by rw [objD_lbrack] at hcnt; omega
                have hsh : (skipWs s).1 ++ ':' :: ((skipWs r2).1 ++ (v ++ tl))
                    = ((skipWs s).1 ++ ':' :: (skipWs r2).1) ++ (v ++ tl) := by simp
                rw [hsh]
                have e1 := scanGo_append_more '[' ']' ((skipWs s).1 ++ ':' :: (skipWs r2).1) (v ++ tl) cnt cnt false false false false n
                  (scanGo_inert '[' ']' (Or.inl rfl) (Or.inl rfl) _ hrun cnt false n)
                rw [e1]
                have e2 := scanGo_append_more '[' ']' v tl cnt cnt false false false false
                  (n + ((skipWs s).1 ++ ':' :: (skipWs r2).1).length)
                  (V1 cnt (n + ((skipWs s).1 ++ ':' :: (skipWs r2).1).length) hc1)
                rw [e2]
                exact T1.1 cnt _ hcnt
              · intro hb
                exact absurd hb (by decide)
            · refine ⟨?_, ?_⟩
              · intro cnt n hcnt
                have hc1 : 1 ≤ cnt := by rw [objD_lbrace] at hcnt; omega
                have hsh : (skipWs s).1 ++ ':' :: ((skipWs r2).1 ++ (v ++ tl))
                    = ((skipWs s).1 ++ ':' :: (skipWs r2).1) ++ (v ++ tl) := by simp
                rw [hsh]
                have e1 := scanGo_append_more '{' '}' ((skipWs s).1 ++ ':' :: (skipWs r2).1) (v ++ tl) cnt cnt false false false false n
                  (scanGo_inert '{' '}' (Or.inr rfl) (Or.inr rfl) _ hrun cnt false n)
                rw [e1]
                have e2 := scanGo_append_more '{' '}' v tl cnt cnt false false false false
                  (n + ((skipWs s).1 ++ ':' :: (skipWs r2).1).length)
                  (V2 cnt (n + ((skipWs s).1 ++ ':' :: (skipWs r2).1).length) hc1)
                rw [e2]
                exact T2.1 cnt _ hcnt
              · intro hb
                obtain ⟨mt, hmt, F⟩ := T2.2 rfl
                refine ⟨((skipWs s).1 ++ ':' :: (skipWs r2).1).length + v.length + mt, ?_, ?_⟩
                · simp only [List.length_append, List.length_cons]
                  omega
                · intro ys n
                  have hsh : ((skipWs s).1 ++ ':' :: ((skipWs r2).1 ++ (v ++ tl))) ++ ys
                      = ((skipWs s).1 ++ ':' :: (skipWs r2).1) ++ (v ++ (tl ++ ys)) := by simp
                  rw [hsh]
                  have e1 := scanGo_append_more '{' '}' ((skipWs s).1 ++ ':' :: (skipWs r2).1) (v ++ (tl ++ ys)) 1 1 false false false false n
                    (scanGo_inert '{' '}' (Or.inr rfl) (Or.inr rfl) _ hrun 1 false n)
                  rw [e1]
                  have e2 := scanGo_append_more '{' '}' v (tl ++ ys) 1 1 false false false false
                    (n + ((skipWs s).1 ++ ':' :: (skipWs r2).1).length)
                    (V2 1 (n + ((skipWs s).1 ++ ':' :: (skipWs r2).1).length) (by omega))
                  rw [e2]
                  rw [F ys (n + ((skipWs s).1 ++ ':' :: (skipWs r2).1).length + v.length)]
                  congr 1
                  omega
      · simp at h
    | objTail =>
      simp only [parseRun] at h
      split at h
      · rename_i r2 heq
        simp only [Option.some.injEq, Prod.mk.injEq] at h
        obtain ⟨h1, h2⟩ := h
        subst h1
        have hw := skipWs_fst_inert s
        constructor
        · refine ⟨?_, ?_⟩
          · intro cnt n hcnt
            have e1 := scanGo_append_more '[' ']' (skipWs s).1 ['}'] cnt cnt false false false false n
              (scanGo_inert '[' ']' (Or.inl rfl) (Or.inl rfl) _ hw cnt false n)
            rw [e1]
            rw [scanGo_other '[' ']' '}' [] cnt (n + (skipWs s).1.length) (by decide) (by decide) (by decide) (by decide)]
            rw [objD_lbrack]
            simp [scanGo]
          · intro hb
            exact absurd hb (by decide)
        · refine ⟨?_, ?_⟩
          · intro cnt n hcnt
            have hc2 : 2 ≤ cnt := by rw [objD_lbrace] at hcnt; omega
            have e1 := scanGo_append_more '{' '}' (skipWs s).1 ['}'] cnt cnt false false false false n
              (scanGo_inert '{' '}' (Or.inr rfl) (Or.inr rfl) _ hw cnt false n)
            rw [e1]
            rw [scanGo_close '{' '}' [] cnt (n + (skipWs s).1.length) (Or.inr rfl) (Or.inr rfl)]
            rw [if_neg (by omega), objD_lbrace]
            rfl
          · intro hb
            refine ⟨(skipWs s).1.length, by simp, ?_⟩
            intro ys n
            rw [List.append_assoc, List.singleton_append]
            have e1 := scanGo_append_more '{' '}' (skipWs s).1 ('}' :: ys) 1 1 false false false false n
              (scanGo_inert '{' '}' (Or.inr rfl) (Or.inr rfl) _ hw 1 false n)
            rw [e1]
            rw [scanGo_close '{' '}' ys 1 (n + (skipWs s).1.length) (Or.inr rfl) (Or.inr rfl)]
            rw [if_pos (by omega)]
      · rename_i r2 heq
        split at h
        · rename_i r3 heq2
          split at h
          · simp at h
          · rename_i k r4 hk
            split at h
            · simp at h
            · rename_i q r5 hq2
              simp only [Option.some.injEq, Prod.mk.injEq] at h
              obtain ⟨h1, h2⟩ := h
              subst h1
              have hw := skipWs_fst_inert s
              have hw2 := skipWs_fst_inert r2
              have hrun := inert_run_append (skipWs s).1 (skipWs r2).1 ',' hw hw2 (by decide)
              obtain ⟨K1, K2⟩ := ih PMode.strRest _ _ _ hk
              obtain ⟨Q1, Q2⟩ := ih PMode.objAfterKey _ _ _ hq2
              constructor
              · refine ⟨?_, ?_⟩
                · intro cnt n hcnt
                  have hsh : (skipWs s).1 ++ ',' :: ((skipWs r2).1 ++ '"' :: (k ++ q))
                      = ((skipWs s).1 ++ ',' :: (skipWs r2).1) ++ ('"' :: (k ++ q)) := by simp
                  rw [hsh]
                  have e1 := scanGo_append_more '[' ']' ((skipWs s).1 ++ ',' :: (skipWs r2).1) ('"' :: (k ++ q)) cnt cnt false false false false n
                    (scanGo_inert '[' ']' (Or.inl rfl) (Or.inl rfl) _ hrun cnt false n)
                  rw [e1, scanGo_quote]
                  simp only [Bool.not_false]
                  have e2 := scanGo_append_more '[' ']' k q cnt cnt true false false false
                    (n + ((skipWs s).1 ++ ',' :: (skipWs r2).1).length + 1)
                    (K1 cnt (n + ((skipWs s).1 ++ ',' :: (skipWs r2).1).length + 1))
                  rw [e2]
                  exact Q1.1 cnt _ hcnt
                · intro hb
                  exact absurd hb (by decide)
              · refine ⟨?_, ?_⟩
                · intro cnt n hcnt
                  have hsh : (skipWs s).1 ++ ',' :: ((skipWs r2).1 ++ '"' :: (k ++ q))
                      = ((skipWs s).1 ++ ',' :: (skipWs r2).1) ++ ('"' :: (k ++ q)) := by simp
                  rw [hsh]
                  have e1 := scanGo_append_more '{' '}' ((skipWs s).1 ++ ',' :: (skipWs r2).1) ('"' :: (k ++ q)) cnt cnt false false false false n
                    (scanGo_inert '{' '}' (Or.inr rfl) (Or.inr rfl) _ hrun cnt false n)
                  rw [e1, scanGo_quote]
                  simp only [Bool.not_false]
                  have e2 := scanGo_append_more '{' '}' k q cnt cnt true false false false
                    (n + ((skipWs s).1 ++ ',' :: (skipWs r2).1).length + 1)
                    (K2 cnt (n + ((skipWs s).1 ++ ',' :: (skipWs r2).1).length + 1))
                  rw [e2]
                  exact Q2.1 cnt _ hcnt
                · intro hb
                  obtain ⟨mq, hmq, F⟩ := Q2.2 rfl
                  refine ⟨((skipWs s).1 ++ ',' :: (skipWs r2).1).length + 1 + k.length + mq, ?_, ?_⟩
                  · simp only [List.length_append, List.length_cons]
                    omega
                  · intro ys n
                    have hsh : ((skipWs s).1 ++ ',' :: ((skipWs r2).1 ++ '"' :: (k ++ q))) ++ ys
                        = ((skipWs s).1 ++ ',' :: (skipWs r2).1) ++ ('"' :: (k ++ (q ++ ys))) := by simp
                    rw [hsh]
                    have e1 := scanGo_append_more '{' '}' ((skipWs s).1 ++ ',' :: (skipWs r2).1) ('"' :: (k ++ (q ++ ys))) 1 1 false false false false n
                      (scanGo_inert '{' '}' (Or.inr rfl) (Or.inr rfl) _ hrun 1 false n)
                    rw [e1, scanGo_quote]
                    simp only [Bool.not_false]
                    have e2 := scanGo_append_more '{' '}' k (q ++ ys) 1 1 true false false false
                      (n + ((skipWs s).1 ++ ',' :: (skipWs r2).1).length + 1)
                      (K2 1 (n + ((skipWs s).1 ++ ',' :: (skipWs r2).1).length + 1))
                    rw [e2]
                    rw [F ys (n + ((skipWs s).1 ++ ',' :: (skipWs r2).1).length + 1 + k.length)]
                    congr 1
                    omega
        · simp at h
      · simp at h

end Extractor

/-! ### C1: the extractor on inputs with a complete JSON value at the
first bracket, and its counterexample -/

namespace Extractor

theorem findIdx_drop_cons (t : List Char) (b : Char) (i : Nat)
    (h : t.findIdx? (fun c => c = b) = some i) : ∃ cs, t.drop i = b :: cs := by
  rw [List.findIdx?_eq_some_iff_getElem] at h
  obtain ⟨hlt, hp, _⟩ := h
  simp only [decide_eq_true_eq] at hp
  refine ⟨t.drop (i + 1), ?_⟩
  rw [List.drop_eq_getElem_cons hlt, hp]

/-- The spec's worked example `{"a": "[not json"}`: the interior `[`
sits inside a string literal. -/
def c1Example : List Char :=
  ['{', '"', 'a', '"', ':', ' ', '"', '[', 'n', 'o', 't', ' ', 'j', 's', 'o', 'n', '"', '}']

/-- A valid JSON object whose first `[` lies inside a string literal and
is followed (inside a later string literal) by a `]`. -/
def c1Bad : List Char :=
  ['{', '"', 'a', '"', ':', ' ', '"', '[', '"', ',', ' ', '"', 'b', '"', ':', ' ', '"', ']', '"', '}']

/-- Concrete object input for the witness. -/
def c1WitObj : List Char := ['x', ' ', '{', '"', 'a', '"', ':', ' ', '1', '}']

/-- C1 as stated is false at a concrete input: `{"a": "[", "b": "]"}` is
itself a balanced top-level JSON object whose braces are not nested
inside a string literal, yet the extractor returns the substring
`[", "b": "]` — the array scan starts at the first `[` of the text even
though that `[` sits inside a string literal, so the scan's in-string
flag is out of phase and the returned substring is not valid JSON. -/
theorem c1_counterexample :
    isValidJson c1Bad = true
    ∧ extract_json c1Bad = ['[', '"', ',', ' ', '"', 'b', '"', ':', ' ', '"', ']']
    ∧ isValidJson (extract_json c1Bad) = false := by
  exact ⟨by decide, by decide, by decide⟩

/-- C1 amended: on think-free, fence-free input, (1) if a complete JSON
value begins at the first `[` of the text, the extractor returns exactly
that value; (2) if the array scan fails and a complete JSON value begins
at the first `{`, the extractor returns exactly that value; and (3) the
spec's example `{"a": "[not json"}` extracts the full object, which is
valid JSON — brackets inside the string literals of a value whose scan
starts at its opening bracket never affect the balance count.  (The
counterexample shows the hypothesis of (1) is needed: the first `[` may
itself lie inside a string literal of a larger object.) -/
theorem c1_amended (t : List Char)
    (hthink : findSubstr t "<think>".toList = none)
    (hjf : findJsonFence t = none)
    (haf : findAnyFence t = none) :
    (∀ (i fuel : Nat) (p r : List Char),
        t.findIdx? (fun c => c = '[') = some i →
        parseRun fuel PMode.value (t.drop i) = some (p, r) →
        extract_json t = p)
    ∧ (∀ (j fuel : Nat) (p r : List Char),
        scanExtract '[' ']' t = none →
        t.findIdx? (fun c => c = '{') = some j →
        parseRun fuel PMode.value (t.drop j) = some (p, r) →
        extract_json t = p)
    ∧ (extract_json c1Example = c1Example ∧ isValidJson c1Example = true) := by
  refine ⟨?_, ?_, by decide, by decide⟩
  · intro i fuel p r hidx hp
    obtain ⟨cs0, hdrop⟩ := findIdx_drop_cons t '[' i hidx
    cases fuel with
    | zero => exact absurd hp (by simp [parseRun])
    | succ f =>
      rw [hdrop] at hp
      simp only [parseRun] at hp
      rw [if_neg (by decide), if_pos trivial] at hp
      rw [Option.map_eq_some'] at hp
      obtain ⟨⟨pa, r1⟩, hm, heq⟩ := hp
      simp only [Prod.mk.injEq] at heq
      obtain ⟨h1, h2⟩ := heq
      subst h1
      obtain ⟨SP, _⟩ := parse_scan f PMode.arrayRest cs0 pa r1 hm
      obtain ⟨m, hmlen, F⟩ := SP.2 rfl
      have happ := parseRun_append f PMode.arrayRest cs0 pa r1 hm
      have hscan : scanExtract '[' ']' t = some ('[' :: pa) := by
        unfold scanExtract
        simp only [hidx]
        rw [hdrop]
        rw [scanGo_open '[' ']' cs0 0 0 (Or.inl rfl)]
        rw [show (0 : Int) + 1 = 1 from rfl, show (0 : Nat) + 1 = 1 from rfl]
        rw [← happ, F r1 1]
        show some (('[' :: (pa ++ r1)).take (1 + m + 1)) = some ('[' :: pa)
        have harith : 1 + m + 1 = (m + 1) + 1 := by omega
        rw [harith]
        simp only [List.take_succ_cons]
        rw [← hmlen, List.take_left]
      unfold extract_json
      rw [stripThink_id _ _ hthink]
      simp only [hjf, haf, hscan]
  · intro j fuel p r harr hidx hp
    obtain ⟨cs0, hdrop⟩ := findIdx_drop_cons t '{' j hidx
    cases fuel with
    | zero => exact absurd hp (by simp [parseRun])
    | succ f =>
      rw [hdrop] at hp
      simp only [parseRun] at hp
      rw [if_neg (by decide), if_neg (by decide), if_pos trivial] at hp
      rw [Option.map_eq_some'] at hp
      obtain ⟨⟨pb, r1⟩, hm, heq⟩ := hp
      simp only [Prod.mk.injEq] at heq
      obtain ⟨h1, h2⟩ := heq
      subst h1
      obtain ⟨_, SP⟩ := parse_scan f PMode.objRest cs0 pb r1 hm
      obtain ⟨m, hmlen, F⟩ := SP.2 rfl
      have happ := parseRun_append f PMode.objRest cs0 pb r1 hm
      have hscan : scanExtract '{' '}' t = some ('{' :: pb) := by
        unfold scanExtract
        simp only [hidx]
        rw [hdrop]
        rw [scanGo_open '{' '}' cs0 0 0 (Or.inr rfl)]
        rw [show (0 : Int) + 1 = 1 from rfl, show (0 : Nat) + 1 = 1 from rfl]
        rw [← happ, F r1 1]
        show some (('{' :: (pb ++ r1)).take (1 + m + 1)) = some ('{' :: pb)
        have harith : 1 + m + 1 = (m + 1) + 1 := by omega
        rw [harith]
        simp only [List.take_succ_cons]
        rw [← hmlen, List.take_left]
      unfold extract_json
      rw [stripThink_id _ _ hthink]
      simp only [hjf, haf, harr, hscan]

/-- Witness for C1 amended: a complete array after noise is returned
exactly, and, with no `[` present, a complete object after noise is
returned exactly. -/
theorem c1_amended_witness :
    extract_json "noise [1, 2] tail".toList = "[1, 2]".toList
    ∧ extract_json c1WitObj = ['{', '"', 'a', '"', ':', ' ', '1', '}'] := by
  constructor
  · exact (c1_amended "noise [1, 2] tail".toList rfl rfl rfl).1 6 20
      "[1, 2]".toList " tail".toList (by decide) (by decide)
  · exact (c1_amended c1WitObj rfl rfl rfl).2.1 2 20
      ['{', '"', 'a', '"', ':', ' ', '1', '}'] [] (by decide) (by decide) (by decide)

end Extractor
